import Mathlib

/-!
# Verification of the `sol` bytecode compiler and register VM

A shallow embedding of the core of the `sol` language toolchain
(`src/compiler.rs`, `src/scope.rs`, `src/instructions.rs`, `src/types.rs`,
`src/macros.rs`, `src/vm/mod.rs`, `src/vm/registers.rs`, `src/vm/value.rs`),
together with theorems settling the specification claims.

Modelling conventions:

* Rust `u8` / `u16` / `usize` quantities (register indices, literal and
  function ids, jump offsets, buffer lengths) are modelled as `Nat`.
  Where the source performs a fallible `try_into` conversion we keep the
  explicit bound check (`tryIntoU16`); where the source performs a wrapping
  `as` cast we keep the value unchanged (the claims under study never
  approach the wrap-around bounds) except where the wrap is observable
  (`as u16` on the else-branch jump offset keeps its `% 65536`, and the
  `i64 as usize` array-index cast keeps its two's-complement reduction).
* Rust `i64` is modelled as `Int` (no claim exercises integer overflow) and
  Rust `f64` is modelled as `Rat`.  Every float value appearing in a claim
  is a small dyadic rational on which `f64` arithmetic and comparison are
  exact, so the claims are insensitive to this choice; `f64` division by
  zero (which yields an infinity the model cannot represent) is likewise
  outside every claim.
* A Rust panic (`unreachable!`, index out of bounds, checked arithmetic
  underflow, integer division by zero) is modelled as an explicit outcome
  (`CompilerError.Panic` at compile time, `VMError.panicked` at run time),
  distinct from the source's own error enums.
* Native functions perform I/O side effects in the source (`print`); the
  model keeps only their value behaviour `List VMValue → Option VMValue`.
-/

namespace Sol

/-- Runtime/compile-time constant values (`types.rs`, `enum Literal`).
`f64` is modelled as `Rat`, `i64` as `Int`. -/
inductive Literal where
  | str (s : String)
  | float (f : Rat)
  | int (n : Int)
  | bool (b : Bool)
deriving DecidableEq, Repr

/-- The instruction set (`instructions.rs`, `enum Instruction`).  Register
indices, literal ids, function ids and jump offsets are `Nat`. -/
inductive Instruction where
  | Copy (dest src : Nat)
  | LoadFunction (dest src : Nat)
  | CallNativeFunction (src arg_count return_val : Nat)
  | CallFunction (src arg_count return_val : Nat)
  | AllocateObject (dest : Nat)
  | SetObjectField (object field value : Nat)
  | GetObjectField (object field return_val : Nat)
  | LoadLiteral (dest src : Nat)
  | PrefixNot (dest rhs : Nat)
  | PrefixSub (dest rhs : Nat)
  | JumpIfFalse (src offset : Nat)
  | Jump (offset : Nat)
  | JumpReverse (offset : Nat)
  | AllocateArray (dest : Nat)
  | SetArrayIndex (array index value : Nat)
  | GetArrayIndex (array index return_val : Nat)
  | Add (dest lhs rhs : Nat)
  | Sub (dest lhs rhs : Nat)
  | Mul (dest lhs rhs : Nat)
  | Div (dest lhs rhs : Nat)
  | Equals (dest lhs rhs : Nat)
  | NotEquals (dest lhs rhs : Nat)
  | GreaterThan (dest lhs rhs : Nat)
  | GreaterThanOrEquals (dest lhs rhs : Nat)
  | LessThan (dest lhs rhs : Nat)
  | LessThanOrEquals (dest lhs rhs : Nat)
  | Return (val : Nat)
  | FunctionReturn
deriving DecidableEq, Repr

/-- A compiled function (`compiler.rs`, `struct Function`). -/
structure Function where
  name : String
  code : List Instruction
  register_count : Nat
deriving DecidableEq, Repr

/-- The compiler's output artifact (`compiler.rs`, `struct CompiledProgram`). -/
structure CompiledProgram where
  functions : List Function
  global_code : List Instruction
  global_register_count : Nat
  literals : List Literal
deriving DecidableEq, Repr

/-- Expression operators (`ast.rs`, `enum Operator`). -/
inductive Operator where
  | Plus | Minus | Multiply | Not | Divide
  | GreaterThan | GreaterThanOrEqual | LessThan | LessThanOrEqual
  | Equal | NotEqual
deriving DecidableEq, Repr

/-- Expression trees (`ast.rs`, `enum Expression`).  The `Array` and
`ArrayAccess` constructors of `ast.rs` are omitted: `compiler.rs` has no
match arm for them and no claim mentions them.  Object literals carry their
fields as an ordered association list (`OrderMap<String, Expression>`). -/
inductive Expression where
  | Prefix (op : Operator) (expr : Expression)
  | Infix (op : Operator) (lhs rhs : Expression)
  | Lit (lit : Literal)
  | Var (name : String)
  | FunctionCall (name : String) (args : List Expression)
  | Object (fields : List (String × Expression))
  | ObjectAccess (path : List String)
deriving Repr

/-- Statement trees (`ast.rs`, `enum Statement`).  `ast::Function` is
flattened into the `Func` constructor keeping the fields the compiler
reads: name, parameter names, body.  (Parameter/return type annotations
are only consumed by the external typechecker.) -/
inductive Statement where
  | Const (name : String) (value : Expression)
  | Let (name : String) (value : Expression) (is_mutable : Bool)
  | Reassignment (name : String) (value : Expression)
  | ObjectMutation (path : Expression) (value : Expression)
  | If (condition : Expression) (body : Statement)
      (else_statement : Option Statement)
  | Block (body : List Statement)
  | Loop (body : Statement)
  | Ret (e : Expression)
  | Func (name : String) (parameters : List String) (body : Statement)
  | Expr (e : Expression)
  | Break
deriving Repr

/-- Scope kind (`scope.rs`, `enum ScopeType`). -/
inductive ScopeType where
  | Global
  | Local
deriving DecidableEq, Repr

/-- A lexical scope (`scope.rs`, `struct Scope`): a symbol table mapping a
name to `(register, is_mutable)` plus the set of function names declared in
the scope.  The Rust `HashMap::insert` overwrite is modelled by prepending
the new entry and letting lookup take the first match. -/
structure Scope where
  type : ScopeType
  functions : List String
  symbols : List (String × Nat × Bool)
deriving DecidableEq, Repr

def Scope.new (t : ScopeType) : Scope := ⟨t, [], []⟩

def Scope.define_function (sc : Scope) (name : String) : Scope :=
  { sc with functions := name :: sc.functions }

def Scope.contains_function (sc : Scope) (name : String) : Bool :=
  sc.functions.contains name

def Scope.define_immutable (sc : Scope) (name : String) (register : Nat) : Scope :=
  { sc with symbols := (name, register, false) :: sc.symbols }

def Scope.define_mutable (sc : Scope) (name : String) (register : Nat) : Scope :=
  { sc with symbols := (name, register, true) :: sc.symbols }

/-- `Scope::contains` / `get_register_for`: the register bound to `name`. -/
def Scope.get_register_for (sc : Scope) (name : String) : Option Nat :=
  (sc.symbols.find? (fun p => p.1 = name)).map (fun p => p.2.1)

def Scope.is_mutable (sc : Scope) (name : String) : Option Bool :=
  (sc.symbols.find? (fun p => p.1 = name)).map (fun p => p.2.2)

/-- Compile-time errors (`compiler.rs`, `enum CompilerError`).
`Panic` models a Rust panic (`unwrap` / `unreachable!`), and `OutOfFuel`
is an artifact of the fuelled recursion, never produced when enough fuel
is supplied; neither corresponds to a Rust enum variant. -/
inductive CompilerError where
  | ParserError
  | GeneralError (cause : String)
  | VariableNotFound (v : String)
  | MutationNotAllowed (v : String)
  | IntegerConversionError
  | Panic
  | OutOfFuel
deriving DecidableEq, Repr

/-- The compiler's mutable state (`compiler.rs`, `struct Compiler`).
The scope stack is kept innermost-first (Rust pushes at the back and
iterates with `rev()`). -/
structure CompilerState where
  scope_stack : List Scope
  next_available_register : Nat
  functions : List Function
  literals : List Literal
  bytecode : List Instruction
deriving DecidableEq, Repr

/-- The compiler monad: state plus short-circuiting errors. -/
def CompM (α : Type) : Type :=
  CompilerState → Except CompilerError (α × CompilerState)

instance : Monad CompM where
  pure a := fun s => .ok (a, s)
  bind m f := fun s =>
    match m s with
    | .error e => .error e
    | .ok (a, s') => f a s'

def CompM.fail {α : Type} (e : CompilerError) : CompM α := fun _ => .error e

def getState : CompM CompilerState := fun s => .ok (s, s)

def modifyState (f : CompilerState → CompilerState) : CompM Unit :=
  fun s => .ok ((), f s)

def ofExcept {α : Type} (e : Except CompilerError α) : CompM α :=
  fun s => match e with
  | .error err => .error err
  | .ok a => .ok (a, s)

/-- `usize → u16` conversion via `try_into`, failing on overflow
(`CompilerError::IntegerConversionError`). -/
def tryIntoU16 (n : Nat) : Except CompilerError Nat :=
  if n ≤ 65535 then .ok n else .error .IntegerConversionError

/-- `Compiler::add_scope`. -/
def addScope : CompM Unit :=
  modifyState fun s => { s with scope_stack := Scope.new .Local :: s.scope_stack }

/-- `Compiler::remove_scope`. -/
def removeScope : CompM Unit :=
  modifyState fun s => { s with scope_stack := s.scope_stack.tail }

/-- Update the innermost scope; the Rust `last_mut().unwrap()` panics on an
empty stack. -/
def withCurrentScope (f : Scope → Scope) : CompM Unit := fun s =>
  match s.scope_stack with
  | [] => .error .Panic
  | sc :: rest => .ok ((), { s with scope_stack := f sc :: rest })

/-- `Compiler::define_immutable_current_scope`. -/
def defineImmutableCurrentScope (name : String) (register : Nat) : CompM Unit :=
  withCurrentScope fun sc => sc.define_immutable name register

/-- `Compiler::define_mutable_current_scope`. -/
def defineMutableCurrentScope (name : String) (register : Nat) : CompM Unit :=
  withCurrentScope fun sc => sc.define_mutable name register

/-- `Compiler::define_function_current_scope`. -/
def defineFunctionCurrentScope (name : String) : CompM Unit :=
  withCurrentScope fun sc => sc.define_function name

/-- `Compiler::can_mutate_variable`, expressed on the (innermost-first)
scope stack: the nearest scope binding the name decides mutability. -/
def canMutateVariable (stack : List Scope) (name : String) : Bool :=
  match stack with
  | [] => false
  | sc :: rest =>
    if (sc.get_register_for name).isSome then
      (sc.is_mutable name).getD false
    else
      canMutateVariable rest name

/-- `Compiler::resolve`: innermost-first search for a bound register. -/
def resolveVar (stack : List Scope) (name : String) : Option Nat :=
  match stack with
  | [] => none
  | sc :: rest =>
    match sc.get_register_for name with
    | some reg => some reg
    | none => resolveVar rest name

/-- `Compiler::resolve_function`: is the name declared as a function in any
enclosing scope? -/
def resolveFunctionStack (stack : List Scope) (name : String) : Bool :=
  match stack with
  | [] => false
  | sc :: rest => sc.contains_function name || resolveFunctionStack rest name

/-- `Compiler::get_register`: hand out the next free register. -/
def getRegister : CompM Nat := fun s =>
  .ok (s.next_available_register,
       { s with next_available_register := s.next_available_register + 1 })

def setNextRegister (n : Nat) : CompM Unit :=
  modifyState fun s => { s with next_available_register := n }

/-- Append one instruction to the current code buffer
(`self.bytecode.borrow_mut().push(..)`). -/
def emit (i : Instruction) : CompM Unit :=
  modifyState fun s => { s with bytecode := s.bytecode ++ [i] }

/-- `self.bytecode.replace(new)`: swap the current buffer, returning the
old contents. -/
def swapBytecode (new : List Instruction) : CompM (List Instruction) :=
  fun s => .ok (s.bytecode, { s with bytecode := new })

/-- Append a finished scratch buffer (`append(&mut ..)`). -/
def appendBytecode (code : List Instruction) : CompM Unit :=
  modifyState fun s => { s with bytecode := s.bytecode ++ code }

def pushFunction (f : Function) : CompM Unit :=
  modifyState fun s => { s with functions := s.functions ++ [f] }

/-- Index of the first pool entry equal to the literal (the
`iter().enumerate()` search of the `Literal` arm). -/
def findLiteralId : List Literal → Literal → Option Nat
  | [], _ => none
  | l :: rest, lit =>
    if l = lit then some 0 else (findLiteralId rest lit).map (· + 1)

/-- The literal-pool lookup of `compile_expression`'s `Literal` arm:
first equal entry's id, else append and use the new id. -/
def getOrAddLiteral (lit : Literal) : CompM Nat := fun s =>
  match findLiteralId s.literals lit with
  | some idx => .ok (idx, s)
  | none => .ok (s.literals.length, { s with literals := s.literals ++ [lit] })

/-- Index of the first function in the list carrying the name. -/
def firstIdxWithName : List Function → String → Option Nat
  | [], _ => none
  | f :: rest, name =>
    if f.name = name then some 0 else (firstIdxWithName rest name).map (· + 1)

/-- The `iter().rev().enumerate().find(..)` step of the `FunctionCall` arm:
index of the first match in the reversed function list. -/
def findRevIndex (fns : List Function) (name : String) : Option Nat :=
  firstIdxWithName fns.reverse name

/-- The loop of `compile_loop` that rewrites `break` placeholder jumps.
It walks positions `0, 1, …` of the whole current buffer (not of the loop
body slice) while the position is `< body_size`, replacing
`Jump { offset: 0xDEAD }` by `Jump { offset: (body_size - i + 2) + 1 }`
(after a fallible `u16` conversion). -/
def patchBreakJumps : List Instruction → Nat → Nat →
    Except CompilerError (List Instruction)
  | code, i, body_size =>
    match code with
    | [] => .ok []
    | ins :: rest =>
      if i ≥ body_size then .ok (ins :: rest)
      else do
        let ins' ←
          match ins with
          | .Jump off =>
            if off = 0xDEAD then do
              let o ← tryIntoU16 (body_size - i + 2)
              pure (Instruction.Jump (o + 1))
            else pure ins
          | _ => pure ins
        let rest' ← patchBreakJumps rest (i + 1) body_size
        .ok (ins' :: rest')

/-- The argument-copy loop of the `FunctionCall` arm: for each compiled
argument register, allocate a fresh destination and emit a `Copy`. -/
def emitArgCopies : List Nat → CompM Unit
  | [] => pure ()
  | r :: rest => do
    let dest ← getRegister
    emit (.Copy dest r)
    emitArgCopies rest

/-- The parameter-binding loop of `compile_function`: bind each parameter
name to the next register and advance the counter. -/
def defineParams : List String → CompM Unit
  | [] => pure ()
  | p :: rest => do
    let st ← getState
    defineImmutableCurrentScope p st.next_available_register
    setNextRegister (st.next_available_register + 1)
    defineParams rest

/-- `Compiler::compile_break`: emit the placeholder jump with the reserved
sentinel offset `0xDEAD`, to be rewritten by the enclosing loop. -/
def compileBreak : CompM Unit :=
  emit (.Jump 0xDEAD)

/-!
The recursive compiler (`compiler.rs`).  The mutual recursion over the
nested statement/expression trees is driven by an explicit fuel parameter
(each recursive call consumes one unit); with insufficient fuel the
artificial `OutOfFuel` error results, so every theorem about a successful
compilation is fuel-independent in the sense that it quantifies over an
arbitrary fuel giving an `.ok` result.
-/

mutual

/-- `Compiler::compile_expression`, returning the result register. -/
def compileExpression : Nat → Expression → CompM Nat
  | 0, _ => CompM.fail .OutOfFuel
  | fuel + 1, e =>
    match e with
    | .Prefix op expr => do
      let rhs ← compileExpression fuel expr
      let dest ← getRegister
      let instruction ←
        match op with
        | .Minus => pure (Instruction.PrefixSub dest rhs)
        | .Not => pure (Instruction.PrefixNot dest rhs)
        | _ => CompM.fail (.GeneralError "prefix expression only works with '-' and '!'")
      emit instruction
      pure dest
    | .Infix op lhs rhs => do
      let lhs ← compileExpression fuel lhs
      let rhs ← compileExpression fuel rhs
      let dest ← getRegister
      let instruction ←
        match op with
        | .Plus => pure (Instruction.Add dest lhs rhs)
        | .Minus => pure (Instruction.Sub dest lhs rhs)
        | .Divide => pure (Instruction.Div dest lhs rhs)
        | .Multiply => pure (Instruction.Mul dest lhs rhs)
        | .Equal => pure (Instruction.Equals dest lhs rhs)
        | .NotEqual => pure (Instruction.NotEquals dest lhs rhs)
        | .GreaterThan => pure (Instruction.GreaterThan dest lhs rhs)
        | .GreaterThanOrEqual => pure (Instruction.GreaterThanOrEquals dest lhs rhs)
        | .LessThan => pure (Instruction.LessThan dest lhs rhs)
        | .LessThanOrEqual => pure (Instruction.LessThanOrEquals dest lhs rhs)
        | _ => CompM.fail (.GeneralError "infix expression only works for '+', '-', '/', '*'")
      emit instruction
      pure dest
    | .Lit lit => do
      let reg ← getRegister
      let literal_id ← getOrAddLiteral lit
      emit (.LoadLiteral reg literal_id)
      pure reg
    | .Var name => do
      let st ← getState
      match resolveVar st.scope_stack name with
      | some reg => pure reg
      | none => CompM.fail (.VariableNotFound name)
    | .FunctionCall function_to_call args => do
      let st ← getState
      let found_id : Option Nat :=
        if resolveFunctionStack st.scope_stack function_to_call then
          findRevIndex st.functions function_to_call
        else none
      let regs ← compileExprList fuel args
      let st₁ ← getState
      let start_reg := st₁.next_available_register
      emitArgCopies regs
      let st₂ ← getState
      let last_reg := st₂.next_available_register
      match found_id with
      | some f => do
        let st₃ ← getState
        let found := st₃.functions.length - f - 1
        let reg ← getRegister
        let return_value ← getRegister
        emit (.LoadFunction reg found)
        emit (.CallFunction reg (last_reg - start_reg) return_value)
        pure return_value
      | none => do
        let register ← compileExpression fuel (.Lit (.str function_to_call))
        let return_value ← getRegister
        emit (.CallNativeFunction register (last_reg - start_reg) return_value)
        pure return_value
    | .Object fields => do
      let reg ← getRegister
      emit (.AllocateObject reg)
      compileObjectFields fuel reg fields
      pure reg
    | .ObjectAccess path => do
      let register ← getRegister
      match path with
      | [] => CompM.fail .Panic
      | base_obj :: rest => do
        let obj_reg ← compileExpression fuel (.Var base_obj)
        let _ ← compileObjectPath fuel register obj_reg rest
        pure register

/-- The `for arg in args` loop of the `FunctionCall` arm. -/
def compileExprList : Nat → List Expression → CompM (List Nat)
  | 0, _ => CompM.fail .OutOfFuel
  | _ + 1, [] => pure []
  | fuel + 1, e :: rest => do
    let r ← compileExpression fuel e
    let rs ← compileExprList fuel rest
    pure (r :: rs)

/-- The field loop of the `Object` arm: key string literal, value, field set. -/
def compileObjectFields : Nat → Nat → List (String × Expression) → CompM Unit
  | 0, _, _ => CompM.fail .OutOfFuel
  | _ + 1, _, [] => pure ()
  | fuel + 1, reg, (name, value) :: rest => do
    let nameReg ← compileExpression fuel (.Lit (.str name))
    let valueReg ← compileExpression fuel value
    emit (.SetObjectField reg nameReg valueReg)
    compileObjectFields fuel reg rest

/-- The chained field-access loop of `ObjectAccess`/`compile_object_mutation`:
emits one `GetObjectField` per path element, threading the base register;
returns the final base register. -/
def compileObjectPath : Nat → Nat → Nat → List String → CompM Nat
  | 0, _, _, _ => CompM.fail .OutOfFuel
  | _ + 1, _, obj_reg, [] => pure obj_reg
  | fuel + 1, register, obj_reg, p :: rest => do
    let path_reg ← compileExpression fuel (.Lit (.str p))
    emit (.GetObjectField obj_reg path_reg register)
    compileObjectPath fuel register register rest

/-- `Compiler::compile_statement`. -/
def compileStatement : Nat → Statement → CompM Unit
  | 0, _ => CompM.fail .OutOfFuel
  | fuel + 1, stmt =>
    match stmt with
    | .Const name value => compileLet fuel name value false
    | .Let name value is_mutable => compileLet fuel name value is_mutable
    | .Reassignment name value => compileLetMutation fuel name value
    | .If condition body else_statement => compileIf fuel condition body else_statement
    | .Block body => compileBlock fuel body
    | .Func name parameters body => compileFunction fuel name parameters body
    | .Expr e => do
      let _ ← compileExpression fuel e
      pure ()
    | .Ret e => compileReturn fuel e
    | .Loop body => compileLoop fuel body
    | .Break => compileBreak
    | .ObjectMutation path value => compileObjectMutation fuel path value

/-- The `for statement in statements` loops (`compile`, `compile_block`,
function bodies). -/
def compileStatementList : Nat → List Statement → CompM Unit
  | 0, _ => CompM.fail .OutOfFuel
  | _ + 1, [] => pure ()
  | fuel + 1, stmt :: rest => do
    compileStatement fuel stmt
    compileStatementList fuel rest

/-- `Compiler::compile_let`. -/
def compileLet : Nat → String → Expression → Bool → CompM Unit
  | 0, _, _, _ => CompM.fail .OutOfFuel
  | fuel + 1, name, value, is_mutable => do
    let expression_value_register ← compileExpression fuel value
    if is_mutable then
      defineMutableCurrentScope name expression_value_register
    else
      defineImmutableCurrentScope name expression_value_register

/-- `Compiler::compile_let_mutation`. -/
def compileLetMutation : Nat → String → Expression → CompM Unit
  | 0, _, _ => CompM.fail .OutOfFuel
  | fuel + 1, name, value => do
    let st ← getState
    let can_mutate := canMutateVariable st.scope_stack name
    if can_mutate then do
      let expression_value_register ← compileExpression fuel value
      let st₁ ← getState
      match resolveVar st₁.scope_stack name with
      | some mutable_value_register => do
        emit (.Copy mutable_value_register expression_value_register)
        defineMutableCurrentScope name mutable_value_register
      | none => CompM.fail .Panic
    else
      CompM.fail (.MutationNotAllowed name)

/-- `Compiler::compile_block`. -/
def compileBlock : Nat → List Statement → CompM Unit
  | 0, _ => CompM.fail .OutOfFuel
  | fuel + 1, body => do
    addScope
    compileStatementList fuel body
    removeScope

/-- `Compiler::compile_if`. -/
def compileIf : Nat → Expression → Statement → Option Statement → CompM Unit
  | 0, _, _, _ => CompM.fail .OutOfFuel
  | fuel + 1, condition, body, else_statement => do
    let expression_value_register ← compileExpression fuel condition
    let old_current_code ← swapBytecode []
    compileStatement fuel body
    let if_statement_body ← swapBytecode old_current_code
    let offset : Nat := if else_statement.isNone then 0 else 1
    let o ← ofExcept (tryIntoU16 if_statement_body.length)
    emit (.JumpIfFalse expression_value_register (o + 1 + offset))
    appendBytecode if_statement_body
    match else_statement with
    | none => pure ()
    | some els => do
      let old_current_code ← swapBytecode []
      compileElse fuel els
      let else_statement_body ← swapBytecode old_current_code
      emit (.Jump ((else_statement_body.length % 65536) + 1))
      appendBytecode else_statement_body

/-- The `match else_statement` dispatch at the end of `compile_if`
(`If` recurses, `Block` compiles, anything else is `unreachable!`). -/
def compileElse : Nat → Statement → CompM Unit
  | 0, _ => CompM.fail .OutOfFuel
  | fuel + 1, els =>
    match els with
    | .If condition body next_else => compileIf fuel condition body next_else
    | .Block body => compileBlock fuel body
    | _ => CompM.fail .Panic

/-- `Compiler::compile_return`. -/
def compileReturn : Nat → Expression → CompM Unit
  | 0, _ => CompM.fail .OutOfFuel
  | fuel + 1, expression => do
    let expr_register ← compileExpression fuel expression
    emit (.Return expr_register)

/-- `Compiler::compile_loop`: compile the body in place, rewrite the
`0xDEAD` placeholder jumps found in buffer positions `< body_size`, then
append the backward jump. -/
def compileLoop : Nat → Statement → CompM Unit
  | 0, _ => CompM.fail .OutOfFuel
  | fuel + 1, body => do
    let st ← getState
    let bytecode_size := st.bytecode.length
    let _ ← (match body with
      | .Block b => compileBlock fuel b
      | _ => (CompM.fail .Panic : CompM Unit))
    let st₂ ← getState
    let body_size := st₂.bytecode.length - bytecode_size
    let patched ← ofExcept (patchBreakJumps st₂.bytecode 0 body_size)
    let offset ← ofExcept (tryIntoU16 body_size)
    let _ ← swapBytecode (patched ++ [.JumpReverse offset])
    pure ()

/-- `Compiler::compile_function`. -/
def compileFunction : Nat → String → List String → Statement → CompM Unit
  | 0, _, _, _ => CompM.fail .OutOfFuel
  | fuel + 1, name, parameters, body => do
    let st ← getState
    let prev_register_count := st.next_available_register
    setNextRegister 1
    defineFunctionCurrentScope name
    addScope
    let prev_code ← swapBytecode []
    defineParams parameters
    let _ ← (match body with
      | .Block b => compileStatementList fuel b
      | _ => (CompM.fail (.GeneralError "function body must contain block") : CompM Unit))
    emit .FunctionReturn
    let function_code ← swapBytecode prev_code
    let st₂ ← getState
    let used_registers := st₂.next_available_register
    pushFunction { name := name, code := function_code, register_count := used_registers }
    removeScope
    setNextRegister prev_register_count

/-- `Compiler::compile_object_mutation`. -/
def compileObjectMutation : Nat → Expression → Expression → CompM Unit
  | 0, _, _ => CompM.fail .OutOfFuel
  | fuel + 1, path, value =>
    match path with
    | .ObjectAccess p => do
      let register ← getRegister
      match p with
      | [] => CompM.fail .Panic
      | base_obj :: _ => do
        let obj_reg ← compileExpression fuel (.Var base_obj)
        let obj_reg ← compileObjectPath fuel register obj_reg ((p.drop 1).take (p.length - 2))
        match p.getLast? with
        | none => CompM.fail .Panic
        | some last => do
          let last_reg ← compileExpression fuel (.Lit (.str last))
          let v ← compileExpression fuel value
          emit (.SetObjectField obj_reg last_reg v)
    | _ => CompM.fail .Panic

end

/-- `Compiler::new()`: the initial compiler state. -/
def initialCompilerState : CompilerState :=
  { scope_stack := [Scope.new .Global]
  , next_available_register := 1
  , functions := []
  , literals := []
  , bytecode := [] }

/-- `Compiler::compile`: run all statements from the fresh state and wrap
up the `CompiledProgram`. -/
def compileProgram (fuel : Nat) (statements : List Statement) :
    Except CompilerError CompiledProgram :=
  match compileStatementList fuel statements initialCompilerState with
  | .error e => .error e
  | .ok ((), s) =>
    .ok { functions := s.functions
        , global_code := s.bytecode
        , global_register_count := s.next_available_register
        , literals := s.literals }

/-!
The virtual machine (`vm/mod.rs`, `vm/registers.rs`, `vm/value.rs`).
Shared mutable `Object`/`Array` containers (Rust `Rc<RefCell<..>>`) are
modelled by integer handles into per-kind heaps carried in the VM state,
so aliased handles observe each other's mutations exactly as the
reference-counted containers do.
-/

/-- A runtime register value (`vm/value.rs`, `enum VMValue`). -/
inductive VMValue where
  | Empty
  | Lit (l : Literal)
  | Object (handle : Nat)
  | Array (handle : Nat)
  | Function (f : Function)
deriving DecidableEq, Repr

/-- A value stored inside an object field or array slot
(`types.rs`, `enum ObjectValue`). -/
inductive ObjectValue where
  | Nil
  | Object (handle : Nat)
  | Array (handle : Nat)
  | Lit (l : Literal)
  | Function (f : Function)
deriving DecidableEq, Repr

/-- A saved call frame (`vm/mod.rs`, `struct SavedCallFrame`).  As in the
source, `register_count` records the *callee's* register count at push
time; the window arithmetic reads it back from the frame below. -/
structure Frame where
  ip : Nat
  function : Function
  register_count : Nat
  function_return_value : Nat
deriving DecidableEq, Repr

/-- Run-time faults.  `invalidOperation` is the source's
`ExecutionError::InvalidOperation`; `panicked` models a Rust panic
(`unreachable!`, slice index out of bounds, checked arithmetic), which is
*not* an `ExecutionError`. -/
inductive VMError where
  | invalidOperation (cause : String)
  | panicked
deriving DecidableEq, Repr

/-- The mutable execution state of `run_with_registers_returned`: the flat
register file with its window base (`Registers`), the frame stack (head =
top), the current function and instruction pointer, and the container
heaps. -/
structure VMState where
  registers : List VMValue
  base : Nat
  frames : List Frame
  current : Function
  ip : Nat
  objects : List (List (String × ObjectValue))
  arrays : List (List ObjectValue)
deriving DecidableEq, Repr

/-- The immutable parts of `struct VM`. -/
structure VMConfig where
  functions : List Function
  natives : List (String × (List VMValue → Option VMValue))
  global_function : Function
  literals : List Literal

/-- The standard library (`stdlib/mod.rs`): `print` writes to stdout and
returns no value; only its value behaviour is modelled. -/
def STANDARD_LIBRARY : List (String × (List VMValue → Option VMValue)) :=
  [("print", fun _ => none)]

/-- Native-function resolution: user-registered table first, then the
standard library. -/
def lookupNative (cfg : VMConfig) (name : String) :
    Option (List VMValue → Option VMValue) :=
  (cfg.natives.lookup name).orElse (fun _ => STANDARD_LIBRARY.lookup name)

/-- `VM::new`. -/
def VMConfig.ofProgram (p : CompiledProgram) : VMConfig :=
  { functions := p.functions
  , natives := []
  , global_function :=
      { name := "global", code := p.global_code
      , register_count := p.global_register_count }
  , literals := p.literals }

/-- The initial state of `run_with_registers_returned`:
`Registers::new()` resizes the file to `u8::MAX = 255` empty slots. -/
def initialVMState (cfg : VMConfig) : VMState :=
  { registers := List.replicate 255 .Empty
  , base := 0
  , frames := []
  , current := cfg.global_function
  , ip := 0
  , objects := []
  , arrays := [] }

/-- Window-relative register read (`Registers`' `Index<Register>`);
`none` models the `Vec` bounds panic. -/
def readReg (s : VMState) (i : Nat) : Option VMValue :=
  s.registers.get? (s.base + i)

/-- Window-relative register write (`IndexMut<Register>`). -/
def writeReg (s : VMState) (i : Nat) (v : VMValue) : Option VMState :=
  if s.base + i < s.registers.length then
    some { s with registers := s.registers.set (s.base + i) v }
  else none

/-- The window-growth/shrink amount shared by the `CallFunction`,
`Return` and `FunctionReturn` arms: the `register_count` recorded in the
topmost remaining frame, or the global function's count if none remains. -/
def windowDelta (cfg : VMConfig) (frames : List Frame) : Nat :=
  match frames with
  | frame :: _ => frame.register_count
  | [] => cfg.global_function.register_count

/-- The arithmetic operators instantiating `impl_binary_op!`. -/
inductive ArithOp where
  | add | sub | mul | div
deriving DecidableEq, Repr

def zApply : ArithOp → Int → Int → Int
  | .add, a, b => a + b
  | .sub, a, b => a - b
  | .mul, a, b => a * b
  | .div, a, b => Int.tdiv a b

def qApply : ArithOp → Rat → Rat → Rat
  | .add, a, b => a + b
  | .sub, a, b => a - b
  | .mul, a, b => a * b
  | .div, a, b => a / b

/-- The operand dispatch of `impl_binary_op!` (`macros.rs`): floats
combine directly, a mixed pair promotes the integer to float, two
integers stay integral; every other combination is `unreachable!`.
Integer division by zero is the Rust `i64` division panic. -/
def binOpResult (op : ArithOp) : Literal → Literal → Except VMError Literal
  | .float lhs, .float rhs => .ok (.float (qApply op lhs rhs))
  | .float lhs, .int rhs => .ok (.float (qApply op lhs (rhs : Rat)))
  | .int lhs, .float rhs => .ok (.float (qApply op (lhs : Rat) rhs))
  | .int lhs, .int rhs =>
    if op = .div ∧ rhs = 0 then .error .panicked
    else .ok (.int (zApply op lhs rhs))
  | _, _ => .error .panicked

/-- The comparison operators instantiating `impl_binary_comparator!`. -/
inductive CmpOp where
  | eq | ne | gt | ge | lt | le
deriving DecidableEq, Repr

/-- `PartialOrd for VMValue` (`vm/value.rs`): only two `Empty`s or two
literals of the same kind compare; every other pair is `None`. -/
def literalPartialCmp : Literal → Literal → Option Ordering
  | .str l1, .str l2 => some (compare l1 l2)
  | .float l1, .float l2 => some (compare l1 l2)
  | .int l1, .int l2 => some (compare l1 l2)
  | .bool l1, .bool l2 => some (compare l1 l2)
  | _, _ => none

def vmValuePartialCmp : VMValue → VMValue → Option Ordering
  | .Empty, .Empty => some .eq
  | .Lit l1, .Lit l2 => literalPartialCmp l1 l2
  | _, _ => none

/-- The boolean produced by `impl_binary_comparator!`: Rust's `PartialEq`
/ `PartialOrd` operators over `vmValuePartialCmp` (an incomparable pair
makes every operator except `!=` false). -/
def cmpOpResult (op : CmpOp) (lhs rhs : VMValue) : Bool :=
  match op with
  | .eq => vmValuePartialCmp lhs rhs = some .eq
  | .ne => ¬ (vmValuePartialCmp lhs rhs = some .eq)
  | .gt => vmValuePartialCmp lhs rhs = some .gt
  | .ge => vmValuePartialCmp lhs rhs = some .gt ∨ vmValuePartialCmp lhs rhs = some .eq
  | .lt => vmValuePartialCmp lhs rhs = some .lt
  | .le => vmValuePartialCmp lhs rhs = some .lt ∨ vmValuePartialCmp lhs rhs = some .eq

/-- Register-value → container-value conversion used by the
`SetObjectField`/`SetArrayIndex` arms (`Empty` is `unreachable!`). -/
def toObjectValue : VMValue → Except VMError ObjectValue
  | .Lit l => .ok (.Lit l)
  | .Object h => .ok (.Object h)
  | .Function f => .ok (.Function f)
  | .Array h => .ok (.Array h)
  | .Empty => .error .panicked

/-- Container-value → register-value conversion used by the
`GetObjectField`/`GetArrayIndex` arms. -/
def ofObjectValue : ObjectValue → VMValue
  | .Object h => .Object h
  | .Lit l => .Lit l
  | .Function f => .Function f
  | .Array h => .Array h
  | .Nil => .Empty

/-- `OrderMap::insert`: replace in place if the key exists, else append. -/
def insertOrdered : List (String × ObjectValue) → String → ObjectValue →
    List (String × ObjectValue)
  | [], k, v => [(k, v)]
  | (k', v') :: rest, k, v =>
    if k' = k then (k, v) :: rest else (k', v') :: insertOrdered rest k v

/-- `Array::set` (`types.rs`): growing resize to `2 * (idx + 1)` slots of
`Nil` when the index is out of range (or the array empty), then store. -/
def arraySet (a : List ObjectValue) (idx : Nat) (v : ObjectValue) :
    List ObjectValue :=
  let a' := if idx ≥ a.length ∨ a.length = 0 then
      a ++ List.replicate (2 * (idx + 1) - a.length) .Nil
    else a
  a'.set idx v

/-- The `i64 as usize` cast on array indices (two's-complement wrap). -/
def i64AsUsize (i : Int) : Nat := (i % (2 ^ 64 : Int)).toNat

/-- The argument-copy loop of the `CallFunction` arm: write the copied
slice at absolute positions `pos, pos+1, …`. -/
def writeArgsAt (regs : List VMValue) (pos : Nat) : List VMValue → List VMValue
  | [] => regs
  | v :: rest => writeArgsAt (regs.set pos v) (pos + 1) rest

/-- One-step results of the dispatch loop. -/
inductive StepResult where
  | next (s : VMState)
  | halt (s : VMState)
  | fail (e : VMError)
deriving DecidableEq, Repr

/-- The `Add`/`Sub`/`Mul`/`Div` arms. -/
def arithStep (s : VMState) (op : ArithOp) (dest lhs rhs : Nat) : StepResult :=
  match readReg s lhs, readReg s rhs with
  | some (.Lit l), some (.Lit r) =>
    match binOpResult op l r with
    | .error e => .fail e
    | .ok res =>
      match writeReg s dest (.Lit res) with
      | some s' => .next { s' with ip := s.ip + 1 }
      | none => .fail .panicked
  | some _, some _ => .fail .panicked
  | _, _ => .fail .panicked

/-- The comparison arms. -/
def cmpStep (s : VMState) (op : CmpOp) (dest lhs rhs : Nat) : StepResult :=
  match readReg s lhs, readReg s rhs with
  | some l, some r =>
    match writeReg s dest (.Lit (.bool (cmpOpResult op l r))) with
    | some s' => .next { s' with ip := s.ip + 1 }
    | none => .fail .panicked
  | _, _ => .fail .panicked

/-- One iteration of the dispatch loop of `run_with_registers_returned`:
decode the instruction at `ip` in the current function's code (the loop
exits, returning the registers, when `ip` runs off the end) and execute
it. -/
def step (cfg : VMConfig) (s : VMState) : StepResult :=
  match s.current.code.get? s.ip with
  | none => .halt s
  | some instruction =>
    match instruction with
    | .FunctionReturn =>
      match s.frames with
      | [] => .next s
      | frame :: rest =>
        let δ := windowDelta cfg rest
        if δ ≤ s.base then
          .next { s with frames := rest, base := s.base - δ
                       , ip := frame.ip + 1, current := frame.function }
        else .fail .panicked
    | .Return val =>
      match s.frames with
      | [] => .next s
      | frame :: rest =>
        let δ := windowDelta cfg rest
        if δ ≤ s.base then
          match readReg s val with
          | none => .fail .panicked
          | some v =>
            let s₁ := { s with base := s.base - δ }
            match writeReg s₁ frame.function_return_value v with
            | none => .fail .panicked
            | some s₂ =>
              .next { s₂ with frames := rest, ip := frame.ip + 1
                            , current := frame.function }
        else .fail .panicked
    | .LoadFunction dest src =>
      match cfg.functions.get? src with
      | none => .fail .panicked
      | some func =>
        match writeReg s dest (.Function func) with
        | some s' => .next { s' with ip := s.ip + 1 }
        | none => .fail .panicked
    | .CallNativeFunction src arg_count return_val =>
      match readReg s src with
      | none => .fail .panicked
      | some (.Lit (.str function_name)) =>
        match lookupNative cfg function_name with
        | none => .fail (.invalidOperation
            ("no function matching name '" ++ function_name ++ "' found"))
        | some native_function =>
          if arg_count ≤ src then
            let arg_start := src - arg_count
            if s.base + src ≤ s.registers.length then
              let arg_values :=
                ((s.registers.drop (s.base + arg_start)).take (src - arg_start))
              match native_function arg_values with
              | some return_value =>
                match writeReg s return_val return_value with
                | some s' => .next { s' with ip := s.ip + 1 }
                | none => .fail .panicked
              | none => .next { s with ip := s.ip + 1 }
            else .fail .panicked
          else .fail .panicked
      | some (.Lit _) =>
        .fail (.invalidOperation "native function name must be string value")
      | some _ =>
        .fail (.invalidOperation "native function name must be a literal")
    | .CallFunction src arg_count return_val =>
      match readReg s src with
      | none => .fail .panicked
      | some (.Function func) =>
        let old_ip := s.ip
        let old_base := s.base
        let register_count := func.register_count
        let newBase := old_base + windowDelta cfg s.frames
        if newBase ≤ s.registers.length then
          if arg_count ≤ old_base + src then
            let arg_start := old_base + src - arg_count
            let arg_end := old_base + src
            if arg_end ≤ newBase then
              if arg_count = 0 ∨ newBase + arg_count + 1 ≤ s.registers.length then
                let registers_to_copy :=
                  (s.registers.drop arg_start).take (arg_end - arg_start)
                let regs' := writeArgsAt s.registers (newBase + 1) registers_to_copy
                .next { s with registers := regs'
                             , base := newBase
                             , frames := ⟨old_ip, s.current, register_count,
                                          return_val⟩ :: s.frames
                             , current := func
                             , ip := 0 }
              else .fail .panicked
            else .fail .panicked
          else .fail .panicked
        else .fail .panicked
      | some _ => .fail .panicked
    | .LoadLiteral dest src =>
      match cfg.literals.get? src with
      | none => .fail .panicked
      | some literal =>
        match writeReg s dest (.Lit literal) with
        | some s' => .next { s' with ip := s.ip + 1 }
        | none => .fail .panicked
    | .Add dest lhs rhs => arithStep s .add dest lhs rhs
    | .Sub dest lhs rhs => arithStep s .sub dest lhs rhs
    | .Mul dest lhs rhs => arithStep s .mul dest lhs rhs
    | .Div dest lhs rhs => arithStep s .div dest lhs rhs
    | .Equals dest lhs rhs => cmpStep s .eq dest lhs rhs
    | .NotEquals dest lhs rhs => cmpStep s .ne dest lhs rhs
    | .GreaterThan dest lhs rhs => cmpStep s .gt dest lhs rhs
    | .GreaterThanOrEquals dest lhs rhs => cmpStep s .ge dest lhs rhs
    | .LessThan dest lhs rhs => cmpStep s .lt dest lhs rhs
    | .LessThanOrEquals dest lhs rhs => cmpStep s .le dest lhs rhs
    | .Copy dest src =>
      match readReg s src with
      | none => .fail .panicked
      | some v =>
        match writeReg s dest v with
        | some s' => .next { s' with ip := s.ip + 1 }
        | none => .fail .panicked
    | .PrefixNot dest rhs =>
      match readReg s rhs with
      | none => .fail .panicked
      | some (.Lit (.bool v)) =>
        match writeReg s dest (.Lit (.bool (!v))) with
        | some s' => .next { s' with ip := s.ip + 1 }
        | none => .fail .panicked
      | some (.Lit _) =>
        .fail (.invalidOperation "cannot use '!' on non boolean type")
      | some _ =>
        .fail (.invalidOperation "'!' must be used on literals only")
    | .PrefixSub dest rhs =>
      match readReg s rhs with
      | none => .fail .panicked
      | some (.Lit (.float v)) =>
        match writeReg s dest (.Lit (.float (-v))) with
        | some s' => .next { s' with ip := s.ip + 1 }
        | none => .fail .panicked
      | some (.Lit (.int v)) =>
        match writeReg s dest (.Lit (.int (-v))) with
        | some s' => .next { s' with ip := s.ip + 1 }
        | none => .fail .panicked
      | some (.Lit _) =>
        .fail (.invalidOperation "'-' must be used on number types")
      | some _ =>
        .fail (.invalidOperation "'-' must be used on literals only")
    | .JumpIfFalse src offset =>
      match readReg s src with
      | none => .fail .panicked
      | some (.Lit (.bool b)) =>
        if b then .next { s with ip := s.ip + 1 }
        else .next { s with ip := s.ip + offset }
      | some (.Lit _) => .fail .panicked
      | some _ => .fail .panicked
    | .Jump offset => .next { s with ip := s.ip + offset }
    | .JumpReverse offset =>
      if offset ≤ s.ip then .next { s with ip := s.ip - offset }
      else .fail .panicked
    | .AllocateObject dest =>
      match writeReg s dest (.Object s.objects.length) with
      | some s' => .next { s' with objects := s.objects ++ [[]], ip := s.ip + 1 }
      | none => .fail .panicked
    | .SetObjectField object field value =>
      match readReg s object with
      | some (.Object h) =>
        match readReg s field with
        | some (.Lit (.str key)) =>
          match readReg s value with
          | none => .fail .panicked
          | some v =>
            match toObjectValue v with
            | .error e => .fail e
            | .ok ov =>
              match s.objects.get? h with
              | none => .fail .panicked
              | some fields =>
                .next { s with objects := s.objects.set h (insertOrdered fields key ov)
                             , ip := s.ip + 1 }
        | some _ => .fail .panicked
        | none => .fail .panicked
      | some _ => .fail .panicked
      | none => .fail .panicked
    | .GetObjectField object field return_val =>
      match readReg s field with
      | some (.Lit key) =>
        match readReg s object with
        | some (.Object h) =>
          match s.objects.get? h with
          | none => .fail .panicked
          | some fields =>
            match key with
            | .str ks =>
              let register_value :=
                match fields.lookup ks with
                | some ov => ofObjectValue ov
                | none => .Empty
              match writeReg s return_val register_value with
              | some s' => .next { s' with ip := s.ip + 1 }
              | none => .fail .panicked
            | _ => .fail .panicked
        | some _ => .fail .panicked
        | none => .fail .panicked
      | some _ => .fail .panicked
      | none => .fail .panicked
    | .AllocateArray dest =>
      match writeReg s dest (.Array s.arrays.length) with
      | some s' => .next { s' with arrays := s.arrays ++ [[]], ip := s.ip + 1 }
      | none => .fail .panicked
    | .SetArrayIndex array index value =>
      match readReg s index with
      | some (.Lit (.int i)) =>
        match readReg s array with
        | some (.Array h) =>
          match readReg s value with
          | none => .fail .panicked
          | some v =>
            match toObjectValue v with
            | .error e => .fail e
            | .ok ov =>
              match s.arrays.get? h with
              | none => .fail .panicked
              | some a =>
                .next { s with arrays := s.arrays.set h (arraySet a (i64AsUsize i) ov)
                             , ip := s.ip + 1 }
        | some _ => .fail .panicked
        | none => .fail .panicked
      | some _ => .fail .panicked
      | none => .fail .panicked
    | .GetArrayIndex array index return_val =>
      match readReg s index with
      | some (.Lit (.int i)) =>
        match readReg s array with
        | some (.Array h) =>
          match s.arrays.get? h with
          | none => .fail .panicked
          | some a =>
            let register_value :=
              match a.get? (i64AsUsize i) with
              | some ov => ofObjectValue ov
              | none => .Empty
            match writeReg s return_val register_value with
            | some s' => .next { s' with ip := s.ip + 1 }
            | none => .fail .panicked
        | some _ => .fail .panicked
        | none => .fail .panicked
      | some _ => .fail .panicked
      | none => .fail .panicked

/-- Final outcomes of a fuelled run of the dispatch loop. -/
inductive RunResult where
  | finished (s : VMState)
  | errored (e : VMError)
  | outOfFuel (s : VMState)
deriving Repr

/-- The dispatch loop of `run_with_registers_returned`, fuelled. -/
def run (cfg : VMConfig) : Nat → VMState → RunResult
  | 0, s => .outOfFuel s
  | fuel + 1, s =>
    match step cfg s with
    | .halt s' => .finished s'
    | .fail e => .errored e
    | .next s' => run cfg fuel s'

/-- The four arithmetic instructions, keyed by operator (glue for stating
one theorem over all `impl_binary_op!` instantiations). -/
def arithInstr : ArithOp → Nat → Nat → Nat → Instruction
  | .add, dest, lhs, rhs => .Add dest lhs rhs
  | .sub, dest, lhs, rhs => .Sub dest lhs rhs
  | .mul, dest, lhs, rhs => .Mul dest lhs rhs
  | .div, dest, lhs, rhs => .Div dest lhs rhs

/-- The six comparison instructions, keyed by operator. -/
def cmpInstr : CmpOp → Nat → Nat → Nat → Instruction
  | .eq, dest, lhs, rhs => .Equals dest lhs rhs
  | .ne, dest, lhs, rhs => .NotEquals dest lhs rhs
  | .gt, dest, lhs, rhs => .GreaterThan dest lhs rhs
  | .ge, dest, lhs, rhs => .GreaterThanOrEquals dest lhs rhs
  | .lt, dest, lhs, rhs => .LessThan dest lhs rhs
  | .le, dest, lhs, rhs => .LessThanOrEquals dest lhs rhs

/-- Spec-side definition (following the claim's words, for comparison with
the compiler's recorded `register_count`): the register indices an
instruction's operands denote. -/
def registersUsed : Instruction → List Nat
  | .Copy dest src => [dest, src]
  | .LoadFunction dest _ => [dest]
  | .CallNativeFunction src _ return_val => [src, return_val]
  | .CallFunction src _ return_val => [src, return_val]
  | .AllocateObject dest => [dest]
  | .SetObjectField object field value => [object, field, value]
  | .GetObjectField object field return_val => [object, field, return_val]
  | .LoadLiteral dest _ => [dest]
  | .PrefixNot dest rhs => [dest, rhs]
  | .PrefixSub dest rhs => [dest, rhs]
  | .JumpIfFalse src _ => [src]
  | .Jump _ => []
  | .JumpReverse _ => []
  | .AllocateArray dest => [dest]
  | .SetArrayIndex array index value => [array, index, value]
  | .GetArrayIndex array index return_val => [array, index, return_val]
  | .Add dest lhs rhs => [dest, lhs, rhs]
  | .Sub dest lhs rhs => [dest, lhs, rhs]
  | .Mul dest lhs rhs => [dest, lhs, rhs]
  | .Div dest lhs rhs => [dest, lhs, rhs]
  | .Equals dest lhs rhs => [dest, lhs, rhs]
  | .NotEquals dest lhs rhs => [dest, lhs, rhs]
  | .GreaterThan dest lhs rhs => [dest, lhs, rhs]
  | .GreaterThanOrEquals dest lhs rhs => [dest, lhs, rhs]
  | .LessThan dest lhs rhs => [dest, lhs, rhs]
  | .LessThanOrEquals dest lhs rhs => [dest, lhs, rhs]
  | .Return val => [val]
  | .FunctionReturn => []

/-- Spec-side definition: the maximum register index appearing in a code
sequence (0 when none does). -/
def maxRegisterUsed (code : List Instruction) : Nat :=
  (code.map (fun i => (registersUsed i).foldr max 0)).foldr max 0

/-!
## Concrete fixtures used to instantiate the claim theorems
-/

/-- VM running `[GreaterThan 3 1 2, Equals 4 1 5]` over registers holding
`r1 = int 1`, `r2 = float 1/2`, `r5 = float 1`. -/
def cmpFixtureCfg : VMConfig :=
  ⟨[], [], ⟨"global", [.GreaterThan 3 1 2, .Equals 4 1 5], 6⟩, []⟩

def cmpFixtureRegs : List VMValue :=
  (((List.replicate 8 VMValue.Empty).set 1 (.Lit (.int 1))).set 2
      (.Lit (.float (1/2)))).set 5 (.Lit (.float 1))

def cmpFixtureGt : VMState :=
  ⟨cmpFixtureRegs, 0, [], cmpFixtureCfg.global_function, 0, [], []⟩

def cmpFixtureEq : VMState :=
  ⟨cmpFixtureRegs, 0, [], cmpFixtureCfg.global_function, 1, [], []⟩

/-- Return/call fixture: a callee `f` about to `Return 1` to a global
caller whose window has width 2, and a global caller about to call `f`. -/
def retFixtureCfg : VMConfig := ⟨[], [], ⟨"global", [], 2⟩, []⟩

def retFixtureCallee : Function := ⟨"f", [.Return 1], 3⟩

def retFixtureState : VMState :=
  ⟨(List.replicate 6 VMValue.Empty).set 3 (.Lit (.int 7)), 2,
   [⟨5, retFixtureCfg.global_function, 3, 1⟩], retFixtureCallee, 0, [], []⟩

def callFixtureState : VMState :=
  ⟨(List.replicate 6 VMValue.Empty).set 1 (.Function retFixtureCallee), 0,
   [], ⟨"global", [.CallFunction 1 0 2], 2⟩, 0, [], []⟩

/-- Ill-typed-operand fixtures: `JumpIfFalse`/`CallFunction` on an integer
register, and `PrefixNot`/`CallNativeFunction` on a string register naming
no native function. -/
def badOpFixtureCfg : VMConfig :=
  ⟨[], [], ⟨"global", [.JumpIfFalse 1 2, .CallFunction 1 0 2], 3⟩, []⟩

def badOpFixtureJif : VMState :=
  ⟨(List.replicate 4 VMValue.Empty).set 1 (.Lit (.int 7)), 0, [],
   badOpFixtureCfg.global_function, 0, [], []⟩

def badOpFixtureCall : VMState := { badOpFixtureJif with ip := 1 }

def badOpFixtureCfg2 : VMConfig :=
  ⟨[], [], ⟨"global", [.PrefixNot 2 1, .CallNativeFunction 1 0 2], 3⟩, []⟩

def badOpFixtureNot : VMState :=
  ⟨(List.replicate 4 VMValue.Empty).set 1 (.Lit (.str "nosuch")), 0, [],
   badOpFixtureCfg2.global_function, 0, [], []⟩

def badOpFixtureNative : VMState := { badOpFixtureNot with ip := 1 }

/-- Arithmetic-promotion fixtures: `1 + 2`, `1 + 5/2`, `1 / 0`. -/
def arithFixtureCfg : VMConfig :=
  ⟨[], [], ⟨"global", [.Add 3 1 2, .Add 4 1 5, .Div 6 1 7], 8⟩, []⟩

def arithFixtureRegs : List VMValue :=
  ((((List.replicate 10 VMValue.Empty).set 1 (.Lit (.int 1))).set 2
      (.Lit (.int 2))).set 5 (.Lit (.float (5/2)))).set 7 (.Lit (.int 0))

def arithFixtureIntInt : VMState :=
  ⟨arithFixtureRegs, 0, [], arithFixtureCfg.global_function, 0, [], []⟩

def arithFixtureIntFloat : VMState :=
  ⟨arithFixtureRegs, 0, [], arithFixtureCfg.global_function, 1, [], []⟩

def arithFixtureDivZero : VMState :=
  ⟨arithFixtureRegs, 0, [], arithFixtureCfg.global_function, 2, [], []⟩

/-- Native-call fixture: `print` (returns no value) applied to one
argument. -/
def nativeFixtureCfg : VMConfig :=
  ⟨[], [], ⟨"global", [.CallNativeFunction 2 1 3], 4⟩, []⟩

def nativeFixtureState : VMState :=
  ⟨((List.replicate 5 VMValue.Empty).set 1 (.Lit (.int 42))).set 2
      (.Lit (.str "print")), 0, [], nativeFixtureCfg.global_function, 0, [], []⟩

/-- Shadowing fixture: two compiled functions named `f`; a call site must
reference the later one (index 1). -/
def shadowFixtureState : CompilerState :=
  ⟨[⟨.Global, ["f"], []⟩], 1,
   [⟨"f", [.FunctionReturn], 1⟩, ⟨"f", [.FunctionReturn], 2⟩], [], []⟩

/-- Reassignment fixtures: the compiler state right after
`let mut x = 1;` (respectively `const x = 1;`). -/
def reassignFixtureMut : CompilerState :=
  ⟨[⟨.Global, [], [("x", 1, true)]⟩], 2, [], [.int 1], [.LoadLiteral 1 0]⟩

def reassignFixtureConst : CompilerState :=
  ⟨[⟨.Global, [], [("x", 1, false)]⟩], 2, [], [.int 1], [.LoadLiteral 1 0]⟩

/-!
## Infrastructure lemmas: running the compiler monad
-/

@[simp]
theorem CompM.bind_apply {α β : Type} (m : CompM α) (f : α → CompM β)
    (s : CompilerState) :
    (m >>= f) s =
      match m s with
      | .error e => .error e
      | .ok (a, s') => f a s' := rfl

@[simp]
theorem CompM.pure_apply {α : Type} (a : α) (s : CompilerState) :
    (pure a : CompM α) s = .ok (a, s) := rfl

@[simp]
theorem CompM.fail_apply {α : Type} (e : CompilerError) (s : CompilerState) :
    (CompM.fail e : CompM α) s = .error e := rfl

theorem CompM.bind_eq_ok {α β : Type} {m : CompM α} {f : α → CompM β}
    {s s₂ : CompilerState} {b : β} :
    (m >>= f) s = .ok (b, s₂) ↔
      ∃ a s₁, m s = .ok (a, s₁) ∧ f a s₁ = .ok (b, s₂) := by
  rw [CompM.bind_apply]
  cases h : m s with
  | error e => simp
  | ok p =>
    obtain ⟨a, s₁⟩ := p
    constructor
    · intro hf
      exact ⟨a, s₁, rfl, hf⟩
    · rintro ⟨a', s₁', h', hf⟩
      obtain ⟨rfl, rfl⟩ : a' = a ∧ s₁' = s₁ := by
        have := h'
        simp only [Except.ok.injEq, Prod.mk.injEq] at this
        exact ⟨this.1.symm, this.2.symm⟩
      exact hf

@[simp]
theorem getState_apply (s : CompilerState) : getState s = .ok (s, s) := rfl

@[simp]
theorem modifyState_apply (f : CompilerState → CompilerState)
    (s : CompilerState) : modifyState f s = .ok ((), f s) := rfl

@[simp]
theorem getRegister_apply (s : CompilerState) :
    getRegister s = .ok (s.next_available_register,
      { s with next_available_register := s.next_available_register + 1 }) := rfl

@[simp]
theorem setNextRegister_apply (n : Nat) (s : CompilerState) :
    setNextRegister n s = .ok ((), { s with next_available_register := n }) := rfl

@[simp]
theorem emit_apply (i : Instruction) (s : CompilerState) :
    emit i s = .ok ((), { s with bytecode := s.bytecode ++ [i] }) := rfl

@[simp]
theorem swapBytecode_apply (c : List Instruction) (s : CompilerState) :
    swapBytecode c s = .ok (s.bytecode, { s with bytecode := c }) := rfl

@[simp]
theorem appendBytecode_apply (c : List Instruction) (s : CompilerState) :
    appendBytecode c s = .ok ((), { s with bytecode := s.bytecode ++ c }) := rfl

@[simp]
theorem pushFunction_apply (f : Function) (s : CompilerState) :
    pushFunction f s = .ok ((), { s with functions := s.functions ++ [f] }) := rfl

@[simp]
theorem addScope_apply (s : CompilerState) :
    addScope s = .ok ((), { s with scope_stack := Scope.new .Local :: s.scope_stack }) := rfl

@[simp]
theorem removeScope_apply (s : CompilerState) :
    removeScope s = .ok ((), { s with scope_stack := s.scope_stack.tail }) := rfl

theorem withCurrentScope_apply (f : Scope → Scope) (s : CompilerState) :
    withCurrentScope f s =
      match s.scope_stack with
      | [] => .error .Panic
      | sc :: rest => .ok ((), { s with scope_stack := f sc :: rest }) := rfl

@[simp]
theorem ofExcept_apply {α : Type} (e : Except CompilerError α) (s : CompilerState) :
    ofExcept e s =
      match e with
      | .error err => .error err
      | .ok a => .ok (a, s) := rfl

theorem getOrAddLiteral_apply (lit : Literal) (s : CompilerState) :
    getOrAddLiteral lit s =
      match findLiteralId s.literals lit with
      | some idx => .ok (idx, s)
      | none => .ok (s.literals.length, { s with literals := s.literals ++ [lit] }) := rfl

/-!
## Expression compilation leaves the scope stack and function list intact
-/

/-- Scope-stack and function-list preservation for a compiler action. -/
def EPres {α : Type} (m : CompM α) : Prop :=
  ∀ s a s', m s = .ok (a, s') →
    s'.scope_stack = s.scope_stack ∧ s'.functions = s.functions

theorem epres_bind {α β : Type} {m : CompM α} {f : α → CompM β}
    (hm : EPres m) (hf : ∀ a, EPres (f a)) : EPres (m >>= f) := by
  intro s b s₂ h
  rcases CompM.bind_eq_ok.mp h with ⟨a, s₁, h₁, h₂⟩
  have e1 := hm s a s₁ h₁
  have e2 := hf a s₁ b s₂ h₂
  exact ⟨e2.1.trans e1.1, e2.2.trans e1.2⟩

theorem epres_pure {α : Type} (a : α) : EPres (pure a : CompM α) := by
  intro s b s₂ h
  simp only [CompM.pure_apply, Except.ok.injEq, Prod.mk.injEq] at h
  rw [← h.2]
  exact ⟨rfl, rfl⟩

theorem epres_fail {α : Type} (e : CompilerError) :
    EPres (CompM.fail e : CompM α) := by
  intro s b s₂ h
  simp at h

theorem epres_getState : EPres getState := by
  intro s b s₂ h
  simp only [getState_apply, Except.ok.injEq, Prod.mk.injEq] at h
  rw [← h.2]
  exact ⟨rfl, rfl⟩

theorem epres_getRegister : EPres getRegister := by
  intro s b s₂ h
  simp only [getRegister_apply, Except.ok.injEq, Prod.mk.injEq] at h
  rw [← h.2]
  exact ⟨rfl, rfl⟩

theorem epres_emit (i : Instruction) : EPres (emit i) := by
  intro s b s₂ h
  simp only [emit_apply, Except.ok.injEq, Prod.mk.injEq] at h
  rw [← h.2]
  exact ⟨rfl, rfl⟩

theorem epres_getOrAddLiteral (lit : Literal) : EPres (getOrAddLiteral lit) := by
  intro s b s₂ h
  rw [getOrAddLiteral_apply] at h
  cases hf : findLiteralId s.literals lit with
  | some idx =>
    rw [hf] at h
    simp only [Except.ok.injEq, Prod.mk.injEq] at h
    rw [← h.2]
    exact ⟨rfl, rfl⟩
  | none =>
    rw [hf] at h
    simp only [Except.ok.injEq, Prod.mk.injEq] at h
    rw [← h.2]
    exact ⟨rfl, rfl⟩

theorem epres_emitArgCopies (regs : List Nat) : EPres (emitArgCopies regs) := by
  induction regs with
  | nil => exact epres_pure ()
  | cons r rest ih =>
    exact epres_bind epres_getRegister fun dest =>
      epres_bind (epres_emit _) fun _ => ih

/-- Compiling an expression never touches the scope stack or the function
list (expressions declare nothing); simultaneous induction over the
expression-level compiler functions. -/
theorem exprEPres : ∀ fuel : Nat,
    (∀ e, EPres (compileExpression fuel e)) ∧
    (∀ es, EPres (compileExprList fuel es)) ∧
    (∀ reg fs, EPres (compileObjectFields fuel reg fs)) ∧
    (∀ r o p, EPres (compileObjectPath fuel r o p)) := by
  intro fuel
  induction fuel with
  | zero =>
    exact ⟨fun _ => epres_fail _, fun _ => epres_fail _,
           fun _ _ => epres_fail _, fun _ _ _ => epres_fail _⟩
  | succ fuel ih =>
    obtain ⟨ihE, ihL, ihF, ihP⟩ := ih
    refine ⟨?_, ?_, ?_, ?_⟩
    · intro e
      cases e with
      | Prefix op expr =>
        simp only [compileExpression]
        refine epres_bind (ihE expr) fun rhs => ?_
        refine epres_bind epres_getRegister fun dest => ?_
        cases op <;>
          exact epres_bind (by first | exact epres_pure _ | exact epres_fail _)
            fun y => epres_bind (epres_emit _) fun _ => epres_pure _
      | Infix op lhs rhs =>
        simp only [compileExpression]
        refine epres_bind (ihE lhs) fun l => ?_
        refine epres_bind (ihE rhs) fun r => ?_
        refine epres_bind epres_getRegister fun dest => ?_
        cases op <;>
          exact epres_bind (by first | exact epres_pure _ | exact epres_fail _)
            fun y => epres_bind (epres_emit _) fun _ => epres_pure _
      | Lit lit =>
        simp only [compileExpression]
        refine epres_bind epres_getRegister fun reg => ?_
        refine epres_bind (epres_getOrAddLiteral _) fun lid => ?_
        exact epres_bind (epres_emit _) fun _ => epres_pure _
      | Var name =>
        simp only [compileExpression]
        refine epres_bind epres_getState fun st => ?_
        cases resolveVar st.scope_stack name with
        | some reg => exact epres_pure _
        | none => exact epres_fail _
      | FunctionCall fname args =>
        simp only [compileExpression]
        refine epres_bind epres_getState fun st => ?_
        refine epres_bind (ihL args) fun regs => ?_
        refine epres_bind epres_getState fun st₁ => ?_
        refine epres_bind (epres_emitArgCopies regs) fun _ => ?_
        refine epres_bind epres_getState fun st₂ => ?_
        cases hid : (if resolveFunctionStack st.scope_stack fname then
            findRevIndex st.functions fname else none) with
        | some f =>
          simp only [hid]
          refine epres_bind epres_getState fun st₃ => ?_
          refine epres_bind epres_getRegister fun reg => ?_
          refine epres_bind epres_getRegister fun rv => ?_
          exact epres_bind (epres_emit _) fun _ =>
            epres_bind (epres_emit _) fun _ => epres_pure _
        | none =>
          simp only [hid]
          refine epres_bind (ihE _) fun register => ?_
          refine epres_bind epres_getRegister fun rv => ?_
          exact epres_bind (epres_emit _) fun _ => epres_pure _
      | Object fields =>
        simp only [compileExpression]
        refine epres_bind epres_getRegister fun reg => ?_
        refine epres_bind (epres_emit _) fun _ => ?_
        exact epres_bind (ihF reg fields) fun _ => epres_pure _
      | ObjectAccess path =>
        simp only [compileExpression]
        refine epres_bind epres_getRegister fun register => ?_
        cases path with
        | nil => exact epres_fail _
        | cons base rest =>
          refine epres_bind (ihE _) fun obj_reg => ?_
          exact epres_bind (ihP register obj_reg rest) fun _ => epres_pure _
    · intro es
      cases es with
      | nil =>
        simp only [compileExprList]
        exact epres_pure _
      | cons e rest =>
        simp only [compileExprList]
        refine epres_bind (ihE e) fun r => ?_
        exact epres_bind (ihL rest) fun rs => epres_pure _
    · intro reg fs
      cases fs with
      | nil =>
        simp only [compileObjectFields]
        exact epres_pure _
      | cons f rest =>
        obtain ⟨fname, fvalue⟩ := f
        simp only [compileObjectFields]
        refine epres_bind (ihE _) fun nameReg => ?_
        refine epres_bind (ihE _) fun valueReg => ?_
        exact epres_bind (epres_emit _) fun _ => ihF reg rest
    · intro r o p
      cases p with
      | nil =>
        simp only [compileObjectPath]
        exact epres_pure _
      | cons ph rest =>
        simp only [compileObjectPath]
        refine epres_bind (ihE _) fun path_reg => ?_
        exact epres_bind (epres_emit _) fun _ => ihP r r rest

/-- Projection of `exprEPres` used when reasoning past argument
compilation. -/
theorem compileExpression_pres {fuel : Nat} {e : Expression}
    {s : CompilerState} {r : Nat} {s' : CompilerState}
    (h : compileExpression fuel e s = .ok (r, s')) :
    s'.scope_stack = s.scope_stack ∧ s'.functions = s.functions :=
  (exprEPres fuel).1 e s r s' h

theorem compileExprList_pres {fuel : Nat} {es : List Expression}
    {s : CompilerState} {rs : List Nat} {s' : CompilerState}
    (h : compileExprList fuel es s = .ok (rs, s')) :
    s'.scope_stack = s.scope_stack ∧ s'.functions = s.functions :=
  (exprEPres fuel).2.1 es s rs s' h

/-!
## Literal-pool dedup and register-counter monotonicity
-/

theorem findLiteralId_none {ls : List Literal} {lit : Literal}
    (h : findLiteralId ls lit = none) : lit ∉ ls := by
  induction ls with
  | nil => simp
  | cons l rest ih =>
    simp only [findLiteralId] at h
    by_cases hl : l = lit
    · simp [hl] at h
    · simp only [hl, if_false, Option.map_eq_none'] at h
      simp only [List.mem_cons]
      rintro (rfl | hmem)
      · exact hl rfl
      · exact ih h hmem

/-- The single state action that grows the literal pool keeps it
duplicate-free. -/
theorem getOrAddLiteral_nodup {lit : Literal} {s : CompilerState} {a : Nat}
    {s' : CompilerState} (h : getOrAddLiteral lit s = .ok (a, s'))
    (hnd : s.literals.Nodup) : s'.literals.Nodup := by
  rw [getOrAddLiteral_apply] at h
  cases hf : findLiteralId s.literals lit with
  | some idx =>
    rw [hf] at h
    simp only [Except.ok.injEq, Prod.mk.injEq] at h
    rw [← h.2]
    exact hnd
  | none =>
    rw [hf] at h
    simp only [Except.ok.injEq, Prod.mk.injEq] at h
    rw [← h.2]
    simp only [List.nodup_append, List.nodup_cons, List.not_mem_nil,
      not_false_iff, List.nodup_nil, and_true, true_and]
    refine ⟨hnd, ?_⟩
    intro x hx hx'
    simp only [List.mem_singleton] at hx'
    subst hx'
    exact findLiteralId_none hf hx

/-- Preservation of the global compiler invariants by an action: a
duplicate-free literal pool stays duplicate-free, the register counter
never shrinks across the action, and the function list only grows by
appending. -/
def Pres {α : Type} (m : CompM α) : Prop :=
  ∀ s a s', m s = .ok (a, s') →
    (s.literals.Nodup → s'.literals.Nodup) ∧
    s.next_available_register ≤ s'.next_available_register ∧
    ∃ fs, s'.functions = s.functions ++ fs

theorem pres_bind {α β : Type} {m : CompM α} {f : α → CompM β}
    (hm : Pres m) (hf : ∀ a, Pres (f a)) : Pres (m >>= f) := by
  intro s b s₂ h
  rcases CompM.bind_eq_ok.mp h with ⟨a, s₁, h₁, h₂⟩
  have e1 := hm s a s₁ h₁
  have e2 := hf a s₁ b s₂ h₂
  obtain ⟨fs₁, hfs₁⟩ := e1.2.2
  obtain ⟨fs₂, hfs₂⟩ := e2.2.2
  exact ⟨fun hnd => e2.1 (e1.1 hnd), e1.2.1.trans e2.2.1,
    ⟨fs₁ ++ fs₂, by rw [hfs₂, hfs₁, List.append_assoc]⟩⟩

theorem pres_of_eq {α : Type} {m : CompM α}
    (hm : ∀ s a s', m s = .ok (a, s') →
      s'.literals = s.literals ∧
      s.next_available_register ≤ s'.next_available_register ∧
      s'.functions = s.functions) : Pres m := by
  intro s a s' h
  have := hm s a s' h
  exact ⟨fun hnd => this.1 ▸ hnd, this.2.1, ⟨[], by rw [this.2.2, List.append_nil]⟩⟩

theorem pres_pure {α : Type} (a : α) : Pres (pure a : CompM α) := by
  refine pres_of_eq fun s b s' h => ?_
  simp only [CompM.pure_apply, Except.ok.injEq, Prod.mk.injEq] at h
  rw [← h.2]
  exact ⟨rfl, le_refl _, rfl⟩

theorem pres_fail {α : Type} (e : CompilerError) :
    Pres (CompM.fail e : CompM α) := by
  intro s b s' h
  simp at h

theorem pres_getState : Pres getState := by
  refine pres_of_eq fun s b s' h => ?_
  simp only [getState_apply, Except.ok.injEq, Prod.mk.injEq] at h
  rw [← h.2]
  exact ⟨rfl, le_refl _, rfl⟩

theorem pres_getRegister : Pres getRegister := by
  refine pres_of_eq fun s b s' h => ?_
  simp only [getRegister_apply, Except.ok.injEq, Prod.mk.injEq] at h
  rw [← h.2]
  exact ⟨rfl, Nat.le_succ _, rfl⟩

theorem pres_emit (i : Instruction) : Pres (emit i) := by
  refine pres_of_eq fun s b s' h => ?_
  simp only [emit_apply, Except.ok.injEq, Prod.mk.injEq] at h
  rw [← h.2]
  exact ⟨rfl, le_refl _, rfl⟩

theorem pres_swapBytecode (c : List Instruction) : Pres (swapBytecode c) := by
  refine pres_of_eq fun s b s' h => ?_
  simp only [swapBytecode_apply, Except.ok.injEq, Prod.mk.injEq] at h
  rw [← h.2]
  exact ⟨rfl, le_refl _, rfl⟩

theorem pres_appendBytecode (c : List Instruction) : Pres (appendBytecode c) := by
  refine pres_of_eq fun s b s' h => ?_
  simp only [appendBytecode_apply, Except.ok.injEq, Prod.mk.injEq] at h
  rw [← h.2]
  exact ⟨rfl, le_refl _, rfl⟩

theorem pres_pushFunction (f : Function) : Pres (pushFunction f) := by
  intro s b s' h
  simp only [pushFunction_apply, Except.ok.injEq, Prod.mk.injEq] at h
  rw [← h.2]
  exact ⟨fun hnd => hnd, le_refl _, ⟨[f], rfl⟩⟩

theorem pres_addScope : Pres addScope := by
  refine pres_of_eq fun s b s' h => ?_
  simp only [addScope_apply, Except.ok.injEq, Prod.mk.injEq] at h
  rw [← h.2]
  exact ⟨rfl, le_refl _, rfl⟩

theorem pres_removeScope : Pres removeScope := by
  refine pres_of_eq fun s b s' h => ?_
  simp only [removeScope_apply, Except.ok.injEq, Prod.mk.injEq] at h
  rw [← h.2]
  exact ⟨rfl, le_refl _, rfl⟩

theorem pres_withCurrentScope (f : Scope → Scope) : Pres (withCurrentScope f) := by
  refine pres_of_eq fun s b s' h => ?_
  rw [withCurrentScope_apply] at h
  cases hs : s.scope_stack with
  | nil => rw [hs] at h; simp at h
  | cons sc rest =>
    rw [hs] at h
    simp only [Except.ok.injEq, Prod.mk.injEq] at h
    rw [← h.2]
    exact ⟨rfl, le_refl _, rfl⟩

theorem pres_defineImmutable (name : String) (r : Nat) :
    Pres (defineImmutableCurrentScope name r) := pres_withCurrentScope _

theorem pres_defineMutable (name : String) (r : Nat) :
    Pres (defineMutableCurrentScope name r) := pres_withCurrentScope _

theorem pres_defineFunction (name : String) :
    Pres (defineFunctionCurrentScope name) := pres_withCurrentScope _

theorem pres_ofExcept {α : Type} (e : Except CompilerError α) :
    Pres (ofExcept e) := by
  refine pres_of_eq fun s b s' h => ?_
  rw [ofExcept_apply] at h
  cases e with
  | error err => simp at h
  | ok a =>
    simp only [Except.ok.injEq, Prod.mk.injEq] at h
    rw [← h.2]
    exact ⟨rfl, le_refl _, rfl⟩

theorem pres_getOrAddLiteral (lit : Literal) : Pres (getOrAddLiteral lit) := by
  intro s a s' h
  refine ⟨getOrAddLiteral_nodup h, ?_⟩
  rw [getOrAddLiteral_apply] at h
  cases hf : findLiteralId s.literals lit with
  | some idx =>
    rw [hf] at h
    simp only [Except.ok.injEq, Prod.mk.injEq] at h
    rw [← h.2]
    exact ⟨le_refl _, ⟨[], by rw [List.append_nil]⟩⟩
  | none =>
    rw [hf] at h
    simp only [Except.ok.injEq, Prod.mk.injEq] at h
    rw [← h.2]
    exact ⟨le_refl _, ⟨[], by rw [List.append_nil]⟩⟩

theorem pres_emitArgCopies (regs : List Nat) : Pres (emitArgCopies regs) := by
  induction regs with
  | nil => exact pres_pure ()
  | cons r rest ih =>
    exact pres_bind pres_getRegister fun dest =>
      pres_bind (pres_emit _) fun _ => ih

/-- Exact behaviour of the parameter-binding loop on a non-empty scope
stack: it binds the parameters in the innermost scope and advances the
register counter by the parameter count, touching nothing else. -/
theorem defineParams_ok : ∀ (ps : List String) (s : CompilerState)
    (sc : Scope) (stack : List Scope), s.scope_stack = sc :: stack →
    ∃ sc', defineParams ps s = .ok ((),
      { s with scope_stack := sc' :: stack
             , next_available_register := s.next_available_register + ps.length }) := by
  intro ps
  induction ps with
  | nil =>
    intro s sc stack hscope
    refine ⟨sc, ?_⟩
    simp only [defineParams, CompM.pure_apply, List.length_nil, Nat.add_zero,
      Except.ok.injEq, Prod.mk.injEq, true_and]
    cases s
    simp only at hscope
    simp [hscope]
  | cons p rest ih =>
    intro s sc stack hscope
    have hstep : (do
        let st ← getState
        defineImmutableCurrentScope p st.next_available_register
        setNextRegister (st.next_available_register + 1)
        defineParams rest) s =
        defineParams rest
          { s with scope_stack := (sc.define_immutable p s.next_available_register) :: stack
                 , next_available_register := s.next_available_register + 1 } := by
      simp [defineImmutableCurrentScope, withCurrentScope_apply, hscope,
        Scope.define_immutable]
    obtain ⟨sc', hrest⟩ := ih
      { s with scope_stack := (sc.define_immutable p s.next_available_register) :: stack
             , next_available_register := s.next_available_register + 1 }
      (sc.define_immutable p s.next_available_register) stack rfl
    refine ⟨sc', ?_⟩
    show (do
        let st ← getState
        defineImmutableCurrentScope p st.next_available_register
        setNextRegister (st.next_available_register + 1)
        defineParams rest) s = _
    rw [hstep, hrest]
    simp only [Except.ok.injEq, Prod.mk.injEq, true_and, List.length_cons]
    congr 1
    omega

/-- Anatomy of a successful `compile_function`: the body must be a block;
it is compiled with the register counter reset past the parameters, in a
fresh scope on top of the scope that now declares the function's name,
into an empty buffer; the finished `Function` records that buffer plus the
implicit return and the final counter value; and the caller's counter and
buffer are restored. -/
theorem compileFunction_ok {fuel : Nat} {name : String} {ps : List String}
    {body : Statement} {s s' : CompilerState}
    (h : compileFunction (fuel + 1) name ps body s = .ok ((), s')) :
    ∃ (b : List Statement) (sc0 : Scope) (rest0 : List Scope) (sc_p : Scope)
      (s₆ : CompilerState),
      body = .Block b ∧
      s.scope_stack = sc0 :: rest0 ∧
      compileStatementList fuel b
        { scope_stack := sc_p :: (sc0.define_function name) :: rest0
        , next_available_register := 1 + ps.length
        , functions := s.functions
        , literals := s.literals
        , bytecode := [] } = .ok ((), s₆) ∧
      s' = { scope_stack := s₆.scope_stack.tail
           , next_available_register := s.next_available_register
           , functions := s₆.functions ++
               [⟨name, s₆.bytecode ++ [.FunctionReturn], s₆.next_available_register⟩]
           , literals := s₆.literals
           , bytecode := s.bytecode } := by
  cases hscope : s.scope_stack with
  | nil =>
    exfalso
    simp only [compileFunction, CompM.bind_apply, getState_apply,
      setNextRegister_apply, defineFunctionCurrentScope,
      withCurrentScope_apply, hscope] at h
    exact Except.noConfusion h
  | cons sc0 rest0 =>
    obtain ⟨sc_p, hparams⟩ := defineParams_ok ps
      { scope_stack := Scope.new .Local :: (sc0.define_function name) :: rest0
      , next_available_register := 1
      , functions := s.functions
      , literals := s.literals
      , bytecode := [] }
      (Scope.new .Local) ((sc0.define_function name) :: rest0) rfl
    simp only [compileFunction, CompM.bind_apply, getState_apply,
      setNextRegister_apply, defineFunctionCurrentScope,
      withCurrentScope_apply, hscope, addScope_apply, swapBytecode_apply] at h
    rw [hparams] at h
    cases body with
    | Block b =>
      simp only at h
      cases hbody : compileStatementList fuel b
        { scope_stack := sc_p :: (sc0.define_function name) :: rest0
        , next_available_register := 1 + ps.length
        , functions := s.functions
        , literals := s.literals
        , bytecode := [] } with
      | error e =>
        exfalso
        rw [hbody] at h
        simp at h
      | ok p =>
        obtain ⟨u, s₆⟩ := p
        cases u
        rw [hbody] at h
        simp only [emit_apply, swapBytecode_apply, getState_apply,
          pushFunction_apply, removeScope_apply, CompM.bind_apply,
          CompM.pure_apply, Except.ok.injEq, Prod.mk.injEq, true_and] at h
        exact ⟨b, sc0, rest0, sc_p, s₆, rfl, rfl, hbody, h.symm⟩
    | Const n v => simp at h
    | Let n v m => simp at h
    | Reassignment n v => simp at h
    | ObjectMutation p v => simp at h
    | If c bd e => simp at h
    | Loop bd => simp at h
    | Ret e => simp at h
    | Func n p bd => simp at h
    | Expr e => simp at h
    | Break => simp at h

theorem pres_compileBreak : Pres compileBreak := pres_emit _

/-- The compiler invariants hold across every compilation action:
simultaneous induction over all the mutually recursive compiler
functions. -/
theorem compilePres : ∀ fuel : Nat,
    (∀ e, Pres (compileExpression fuel e)) ∧
    (∀ es, Pres (compileExprList fuel es)) ∧
    (∀ reg fs, Pres (compileObjectFields fuel reg fs)) ∧
    (∀ r o p, Pres (compileObjectPath fuel r o p)) ∧
    (∀ st, Pres (compileStatement fuel st)) ∧
    (∀ sts, Pres (compileStatementList fuel sts)) ∧
    (∀ n v b, Pres (compileLet fuel n v b)) ∧
    (∀ n v, Pres (compileLetMutation fuel n v)) ∧
    (∀ b, Pres (compileBlock fuel b)) ∧
    (∀ c bd e, Pres (compileIf fuel c bd e)) ∧
    (∀ e, Pres (compileElse fuel e)) ∧
    (∀ e, Pres (compileReturn fuel e)) ∧
    (∀ b, Pres (compileLoop fuel b)) ∧
    (∀ n ps b, Pres (compileFunction fuel n ps b)) ∧
    (∀ p v, Pres (compileObjectMutation fuel p v)) := by
  intro fuel
  induction fuel with
  | zero =>
    refine ⟨fun _ => pres_fail _, fun _ => pres_fail _, fun _ _ => pres_fail _,
      fun _ _ _ => pres_fail _, fun _ => pres_fail _, fun _ => pres_fail _,
      fun _ _ _ => pres_fail _, fun _ _ => pres_fail _, fun _ => pres_fail _,
      fun _ _ _ => pres_fail _, fun _ => pres_fail _, fun _ => pres_fail _,
      fun _ => pres_fail _, fun _ _ _ => pres_fail _, fun _ _ => pres_fail _⟩
  | succ fuel ih =>
    obtain ⟨ihE, ihL, ihF, ihP, ihS, ihSL, ihLet, ihMut, ihBlock, ihIf,
      ihElse, ihRet, ihLoop, ihFun, ihOM⟩ := ih
    refine ⟨?_, ?_, ?_, ?_, ?_, ?_, ?_, ?_, ?_, ?_, ?_, ?_, ?_, ?_, ?_⟩
    · intro e
      cases e with
      | Prefix op expr =>
        simp only [compileExpression]
        refine pres_bind (ihE expr) fun rhs => ?_
        refine pres_bind pres_getRegister fun dest => ?_
        cases op <;>
          exact pres_bind (by first | exact pres_pure _ | exact pres_fail _)
            fun y => pres_bind (pres_emit _) fun _ => pres_pure _
      | Infix op lhs rhs =>
        simp only [compileExpression]
        refine pres_bind (ihE lhs) fun l => ?_
        refine pres_bind (ihE rhs) fun r => ?_
        refine pres_bind pres_getRegister fun dest => ?_
        cases op <;>
          exact pres_bind (by first | exact pres_pure _ | exact pres_fail _)
            fun y => pres_bind (pres_emit _) fun _ => pres_pure _
      | Lit lit =>
        simp only [compileExpression]
        refine pres_bind pres_getRegister fun reg => ?_
        refine pres_bind (pres_getOrAddLiteral _) fun lid => ?_
        exact pres_bind (pres_emit _) fun _ => pres_pure _
      | Var name =>
        simp only [compileExpression]
        refine pres_bind pres_getState fun st => ?_
        cases resolveVar st.scope_stack name with
        | some reg => exact pres_pure _
        | none => exact pres_fail _
      | FunctionCall fname args =>
        simp only [compileExpression]
        refine pres_bind pres_getState fun st => ?_
        refine pres_bind (ihL args) fun regs => ?_
        refine pres_bind pres_getState fun st₁ => ?_
        refine pres_bind (pres_emitArgCopies regs) fun _ => ?_
        refine pres_bind pres_getState fun st₂ => ?_
        cases hid : (if resolveFunctionStack st.scope_stack fname then
            findRevIndex st.functions fname else none) with
        | some f =>
          simp only [hid]
          refine pres_bind pres_getState fun st₃ => ?_
          refine pres_bind pres_getRegister fun reg => ?_
          refine pres_bind pres_getRegister fun rv => ?_
          exact pres_bind (pres_emit _) fun _ =>
            pres_bind (pres_emit _) fun _ => pres_pure _
        | none =>
          simp only [hid]
          refine pres_bind (ihE _) fun register => ?_
          refine pres_bind pres_getRegister fun rv => ?_
          exact pres_bind (pres_emit _) fun _ => pres_pure _
      | Object fields =>
        simp only [compileExpression]
        refine pres_bind pres_getRegister fun reg => ?_
        refine pres_bind (pres_emit _) fun _ => ?_
        exact pres_bind (ihF reg fields) fun _ => pres_pure _
      | ObjectAccess path =>
        simp only [compileExpression]
        refine pres_bind pres_getRegister fun register => ?_
        cases path with
        | nil => exact pres_fail _
        | cons base rest =>
          refine pres_bind (ihE _) fun obj_reg => ?_
          exact pres_bind (ihP register obj_reg rest) fun _ => pres_pure _
    · intro es
      cases es with
      | nil =>
        simp only [compileExprList]
        exact pres_pure _
      | cons e rest =>
        simp only [compileExprList]
        refine pres_bind (ihE e) fun r => ?_
        exact pres_bind (ihL rest) fun rs => pres_pure _
    · intro reg fs
      cases fs with
      | nil =>
        simp only [compileObjectFields]
        exact pres_pure _
      | cons f rest =>
        obtain ⟨fname, fvalue⟩ := f
        simp only [compileObjectFields]
        refine pres_bind (ihE _) fun nameReg => ?_
        refine pres_bind (ihE _) fun valueReg => ?_
        exact pres_bind (pres_emit _) fun _ => ihF reg rest
    · intro r o p
      cases p with
      | nil =>
        simp only [compileObjectPath]
        exact pres_pure _
      | cons ph rest =>
        simp only [compileObjectPath]
        refine pres_bind (ihE _) fun path_reg => ?_
        exact pres_bind (pres_emit _) fun _ => ihP r r rest
    · intro st
      cases st with
      | Const name value => simp only [compileStatement]; exact ihLet name value false
      | Let name value m => simp only [compileStatement]; exact ihLet name value m
      | Reassignment name value => simp only [compileStatement]; exact ihMut name value
      | If c bd e => simp only [compileStatement]; exact ihIf c bd e
      | Block body => simp only [compileStatement]; exact ihBlock body
      | Func n ps bd => simp only [compileStatement]; exact ihFun n ps bd
      | Expr e =>
        simp only [compileStatement]
        exact pres_bind (ihE e) fun _ => pres_pure _
      | Ret e => simp only [compileStatement]; exact ihRet e
      | Loop body => simp only [compileStatement]; exact ihLoop body
      | Break => simp only [compileStatement]; exact pres_compileBreak
      | ObjectMutation p v => simp only [compileStatement]; exact ihOM p v
    · intro sts
      cases sts with
      | nil => simp only [compileStatementList]; exact pres_pure _
      | cons st rest =>
        simp only [compileStatementList]
        exact pres_bind (ihS st) fun _ => ihSL rest
    · intro n v b
      simp only [compileLet]
      refine pres_bind (ihE v) fun r => ?_
      cases b with
      | true => simp only [if_true]; exact pres_defineMutable n r
      | false => simp only [Bool.false_eq_true, if_false]; exact pres_defineImmutable n r
    · intro n v
      simp only [compileLetMutation]
      refine pres_bind pres_getState fun st => ?_
      by_cases hc : canMutateVariable st.scope_stack n = true
      · simp only [hc, if_true]
        refine pres_bind (ihE v) fun r => ?_
        refine pres_bind pres_getState fun st₁ => ?_
        cases resolveVar st₁.scope_stack n with
        | some reg =>
          exact pres_bind (pres_emit _) fun _ => pres_defineMutable n reg
        | none => exact pres_fail _
      · simp only [hc, if_false]
        exact pres_fail _
    · intro b
      simp only [compileBlock]
      refine pres_bind pres_addScope fun _ => ?_
      exact pres_bind (ihSL b) fun _ => pres_removeScope
    · intro c bd e
      simp only [compileIf]
      refine pres_bind (ihE c) fun r => ?_
      refine pres_bind (pres_swapBytecode _) fun old => ?_
      refine pres_bind (ihS bd) fun _ => ?_
      refine pres_bind (pres_swapBytecode _) fun if_body => ?_
      refine pres_bind (pres_ofExcept _) fun o => ?_
      refine pres_bind (pres_emit _) fun _ => ?_
      refine pres_bind (pres_appendBytecode _) fun _ => ?_
      cases e with
      | none => exact pres_pure _
      | some els =>
        refine pres_bind (pres_swapBytecode _) fun old₂ => ?_
        refine pres_bind (ihElse els) fun _ => ?_
        refine pres_bind (pres_swapBytecode _) fun else_body => ?_
        exact pres_bind (pres_emit _) fun _ => pres_appendBytecode _
    · intro e
      cases e with
      | If c bd nxt => simp only [compileElse]; exact ihIf c bd nxt
      | Block body => simp only [compileElse]; exact ihBlock body
      | Const n v => simp only [compileElse]; exact pres_fail _
      | Let n v m => simp only [compileElse]; exact pres_fail _
      | Reassignment n v => simp only [compileElse]; exact pres_fail _
      | ObjectMutation p v => simp only [compileElse]; exact pres_fail _
      | Loop bd => simp only [compileElse]; exact pres_fail _
      | Ret ex => simp only [compileElse]; exact pres_fail _
      | Func n ps bd => simp only [compileElse]; exact pres_fail _
      | Expr ex => simp only [compileElse]; exact pres_fail _
      | Break => simp only [compileElse]; exact pres_fail _
    · intro e
      simp only [compileReturn]
      refine pres_bind (ihE e) fun r => ?_
      exact pres_emit _
    · intro b
      simp only [compileLoop]
      refine pres_bind pres_getState fun st => ?_
      refine pres_bind ?_ fun _ => ?_
      · cases b with
        | Block body => exact ihBlock body
        | Const n v => exact pres_fail _
        | Let n v m => exact pres_fail _
        | Reassignment n v => exact pres_fail _
        | ObjectMutation p v => exact pres_fail _
        | If c bd e => exact pres_fail _
        | Loop bd => exact pres_fail _
        | Ret ex => exact pres_fail _
        | Func n ps bd => exact pres_fail _
        | Expr ex => exact pres_fail _
        | Break => exact pres_fail _
      · refine pres_bind pres_getState fun st₂ => ?_
        refine pres_bind (pres_ofExcept _) fun patched => ?_
        refine pres_bind (pres_ofExcept _) fun offset => ?_
        exact pres_bind (pres_swapBytecode _) fun _ => pres_pure _
    · intro n ps b
      intro s a s' h
      cases a
      obtain ⟨bd, sc0, rest0, sc_p, s₆, hb, hscope, hlist, hs'⟩ :=
        compileFunction_ok h
      have hpres := ihSL bd _ _ _ hlist
      refine ⟨?_, ?_, ?_⟩
      · intro hnd
        rw [hs']
        exact hpres.1 hnd
      · rw [hs']
      · obtain ⟨fs, hfs⟩ := hpres.2.2
        refine ⟨fs ++ [⟨n, s₆.bytecode ++ [.FunctionReturn],
          s₆.next_available_register⟩], ?_⟩
        rw [hs']
        simp only at hfs
        rw [hfs, List.append_assoc]
    · intro p v
      cases p with
      | ObjectAccess pth =>
        simp only [compileObjectMutation]
        refine pres_bind pres_getRegister fun register => ?_
        cases pth with
        | nil => exact pres_fail _
        | cons base rest =>
          refine pres_bind (ihE _) fun obj_reg => ?_
          refine pres_bind (ihP _ _ _) fun obj_reg' => ?_
          cases (base :: rest).getLast? with
          | none => exact pres_fail _
          | some last =>
            refine pres_bind (ihE _) fun last_reg => ?_
            refine pres_bind (ihE _) fun vr => ?_
            exact pres_emit _
      | Prefix op ex => simp only [compileObjectMutation]; exact pres_fail _
      | Infix op l r => simp only [compileObjectMutation]; exact pres_fail _
      | Lit l => simp only [compileObjectMutation]; exact pres_fail _
      | Var nm => simp only [compileObjectMutation]; exact pres_fail _
      | FunctionCall nm args => simp only [compileObjectMutation]; exact pres_fail _
      | Object fields => simp only [compileObjectMutation]; exact pres_fail _

theorem compileStatementList_pres {fuel : Nat} {sts : List Statement}
    {s : CompilerState} {a : Unit} {s' : CompilerState}
    (h : compileStatementList fuel sts s = .ok (a, s')) :
    (s.literals.Nodup → s'.literals.Nodup) ∧
    s.next_available_register ≤ s'.next_available_register ∧
    ∃ fs, s'.functions = s.functions ++ fs :=
  (compilePres fuel).2.2.2.2.2.1 sts s a s' h

/-!
## First-match index lemmas for function-name resolution
-/

theorem firstIdxWithName_spec : ∀ (l : List Function) (name : String) (i : Nat),
    firstIdxWithName l name = some i →
    i < l.length ∧ ((l.get? i).map Function.name = some name) ∧
    ∀ j, j < i → (l.get? j).map Function.name ≠ some name := by
  intro l
  induction l with
  | nil => intro name i h; simp [firstIdxWithName] at h
  | cons f rest ih =>
    intro name i h
    simp only [firstIdxWithName] at h
    by_cases hf : f.name = name
    · rw [if_pos hf] at h
      obtain rfl : (0 : Nat) = i := by simpa using h
      exact ⟨Nat.succ_pos _, by simp [hf],
        fun j hj => absurd hj (Nat.not_lt_zero j)⟩
    · rw [if_neg hf] at h
      cases hr : firstIdxWithName rest name with
      | none => rw [hr] at h; simp at h
      | some i' =>
        rw [hr] at h
        simp only [Option.map_some'] at h
        obtain rfl : i' + 1 = i := by simpa using h
        obtain ⟨h1, h2, h3⟩ := ih name i' hr
        refine ⟨Nat.succ_lt_succ h1, by simpa using h2, ?_⟩
        intro j hj
        cases j with
        | zero =>
          simp only [List.get?_cons_zero, Option.map_some', ne_eq,
            Option.some.injEq]
          exact hf
        | succ j' =>
          have := h3 j' (Nat.lt_of_succ_lt_succ hj)
          simpa using this

/-- The `FunctionCall` resolution picks the *last* function with the given
name: the id `len - i - 1` computed from the reversed-list search points at
a function with that name, and no later index does. -/
theorem findRevIndex_most_recent {fns : List Function} {name : String} {i : Nat}
    (h : findRevIndex fns name = some i) :
    i < fns.length ∧
    ((fns.get? (fns.length - i - 1)).map Function.name = some name) ∧
    ∀ j, fns.length - i - 1 < j → j < fns.length →
      (fns.get? j).map Function.name ≠ some name := by
  obtain ⟨h1, h2, h3⟩ := firstIdxWithName_spec fns.reverse name i h
  rw [List.length_reverse] at h1
  have hi : fns.reverse.get? i = fns.get? (fns.length - 1 - i) :=
    List.get?_reverse h1
  refine ⟨h1, ?_, ?_⟩
  · rw [show fns.length - i - 1 = fns.length - 1 - i by omega, ← hi]
    exact h2
  · intro j hj1 hj2 hcontra
    have hj' : fns.length - 1 - j < i := by omega
    have hrev : fns.reverse.get? (fns.length - 1 - j) = fns.get? j := by
      rw [List.get?_reverse (by omega)]
      congr 1
      omega
    exact h3 (fns.length - 1 - j) hj' (by rw [hrev]; exact hcontra)

/-!
## Claim theorems
-/

/-- **C1** (code bug).  The claim says `compile_loop` rewrites every
sentinel `Jump{0xDEAD}` in the loop body so that it jumps just past the
closing `JumpReverse`, regardless of how many instructions precede the
loop.  The code instead scans buffer positions `0 ≤ i < body_size` of the
*whole* current buffer, so with one preceding instruction
(`let a = 1; loop { break }`) the sentinel `Jump{0xDEAD}` (57005) survives
into the emitted code; and even with no preceding instruction
(`loop { break }`) the rewritten offset `4` lands two slots past the
`JumpReverse` at index 1 (landing "just past" it would need offset `2`). -/
theorem c1_loop_break_patching_bug :
    compileProgram 50 [.Let "a" (.Lit (.int 1)) false, .Loop (.Block [.Break])] =
      .ok { functions := []
          , global_code := [.LoadLiteral 1 0, .Jump 0xDEAD, .JumpReverse 1]
          , global_register_count := 2
          , literals := [.int 1] } ∧
    compileProgram 50 [.Loop (.Block [.Break])] =
      .ok { functions := []
          , global_code := [.Jump 4, .JumpReverse 1]
          , global_register_count := 1
          , literals := [] } ∧
    (0xDEAD : Nat) = 57005 := by
  exact ⟨by rfl, by rfl, by rfl⟩

/-- **C6** (confirmed).  Every successfully compiled program has a
duplicate-free literal pool, and `let a = 3; let b = 3;` produces exactly
one pool entry for `3`, referenced by two `LoadLiteral` instructions. -/
theorem c6_literal_pool_dedup :
    (∀ (fuel : Nat) (statements : List Statement) (p : CompiledProgram),
      compileProgram fuel statements = .ok p → p.literals.Nodup) ∧
    compileProgram 50 [.Let "a" (.Lit (.int 3)) false, .Let "b" (.Lit (.int 3)) false] =
      .ok { functions := []
          , global_code := [.LoadLiteral 1 0, .LoadLiteral 2 0]
          , global_register_count := 3
          , literals := [.int 3] } := by
  constructor
  · intro fuel statements p h
    unfold compileProgram at h
    cases hc : compileStatementList fuel statements initialCompilerState with
    | error e => rw [hc] at h; exact Except.noConfusion h
    | ok pr =>
      obtain ⟨u, s⟩ := pr
      cases u
      rw [hc] at h
      simp only [Except.ok.injEq] at h
      have hpres := compileStatementList_pres hc
      have hnd : s.literals.Nodup :=
        hpres.1 (by simp [initialCompilerState])
      rw [← h]
      exact hnd
  · rfl

/-- Witness for C6: the general theorem applied to the concrete program
`let a = 3; let b = 3;`. -/
theorem c6_literal_pool_dedup_witness :
    (CompiledProgram.mk [] [.LoadLiteral 1 0, .LoadLiteral 2 0] 3 [.int 3]).literals.Nodup :=
  c6_literal_pool_dedup.1 50
    [.Let "a" (.Lit (.int 3)) false, .Let "b" (.Lit (.int 3)) false] _ (by rfl)

/-- **C8** (counterexample).  For `fn add(a, b) { return a + b }` the
recorded `register_count` is `4` — the final value of the register
counter — while the maximum register index the function's code uses is
`3`, so `register_count` is *not* the maximum simultaneously-live register
index. -/
theorem c8_register_count_counterexample :
    compileProgram 50 [.Func "add" ["a", "b"]
        (.Block [.Ret (.Infix .Plus (.Var "a") (.Var "b"))])] =
      .ok { functions := [⟨"add", [.Add 3 1 2, .Return 3, .FunctionReturn], 4⟩]
          , global_code := []
          , global_register_count := 1
          , literals := [] } ∧
    maxRegisterUsed [.Add 3 1 2, .Return 3, .FunctionReturn] = 3 ∧
    (4 : Nat) ≠ 3 := by
  exact ⟨by rfl, by rfl, by decide⟩

/-- **C8** (amended).  The recorded `register_count` of a successfully
compiled function declaration is the compiler's register counter after
compiling the parameters and body: at least `1 + #parameters` (one more
than the last parameter register), rather than the maximum used register
index; the declaring scope's counter is restored afterwards. -/
theorem c8_register_count_is_counter :
    ∀ (fuel : Nat) (name : String) (ps : List String) (body : Statement)
      (s s' : CompilerState),
      compileFunction (fuel + 1) name ps body s = .ok ((), s') →
      ∃ (f : Function) (fs : List Function),
        s'.functions = s.functions ++ fs ++ [f] ∧
        f.name = name ∧
        1 + ps.length ≤ f.register_count ∧
        s'.next_available_register = s.next_available_register := by
  intro fuel name ps body s s' h
  obtain ⟨b, sc0, rest0, sc_p, s₆, hb, hscope, hlist, hs'⟩ := compileFunction_ok h
  have hpres := compileStatementList_pres hlist
  obtain ⟨fs, hfs⟩ := hpres.2.2
  simp only at hfs
  refine ⟨⟨name, s₆.bytecode ++ [.FunctionReturn], s₆.next_available_register⟩,
    fs, ?_, rfl, ?_, ?_⟩
  · rw [hs']
    simp only
    rw [hfs, List.append_assoc]
  · have := hpres.2.1
    simpa using this
  · rw [hs']

/-- Witness for C8's amended theorem at `fn add(a, b) { return a + b }`. -/
theorem c8_register_count_is_counter_witness :
    ∃ (f : Function) (fs : List Function),
      ({ scope_stack := [Scope.new .Global |>.define_function "add"]
       , next_available_register := 1
       , functions := [⟨"add", [.Add 3 1 2, .Return 3, .FunctionReturn], 4⟩]
       , literals := []
       , bytecode := [] } : CompilerState).functions =
        ([] : List Function) ++ fs ++ [f] ∧
      f.name = "add" ∧
      1 + (["a", "b"] : List String).length ≤ f.register_count ∧
      (1 : Nat) = 1 := by
  have h : compileFunction 10 "add" ["a", "b"]
      (.Block [.Ret (.Infix .Plus (.Var "a") (.Var "b"))])
      initialCompilerState = .ok ((),
      { scope_stack := [Scope.new .Global |>.define_function "add"]
      , next_available_register := 1
      , functions := [⟨"add", [.Add 3 1 2, .Return 3, .FunctionReturn], 4⟩]
      , literals := []
      , bytecode := [] }) := by rfl
  exact c8_register_count_is_counter 9 "add" ["a", "b"] _ _ _ h

/-- **C5** (confirmed).  Reassignment `name = value`: when the nearest
binding is immutable or absent (`can_mutate_variable` false) compilation
fails with `MutationNotAllowed` before emitting anything; when the nearest
binding is mutable and the value compiles, compilation succeeds and
appends exactly one `Copy` whose destination is the register the nearest
binding received at declaration (`resolve`). -/
theorem c5_reassignment_mutation :
    (∀ (fuel : Nat) (name : String) (value : Expression) (s : CompilerState),
      canMutateVariable s.scope_stack name = false →
      compileStatement (fuel + 2) (.Reassignment name value) s =
        .error (.MutationNotAllowed name)) ∧
    (∀ (fuel : Nat) (name : String) (value : Expression) (s : CompilerState)
      (r : Nat) (s₁ : CompilerState) (reg : Nat),
      canMutateVariable s.scope_stack name = true →
      compileExpression fuel value s = .ok (r, s₁) →
      resolveVar s.scope_stack name = some reg →
      ∃ s₂, compileStatement (fuel + 2) (.Reassignment name value) s =
          .ok ((), s₂) ∧
        s₂.bytecode = s₁.bytecode ++ [.Copy reg r]) := by
  constructor
  · intro fuel name value s hc
    simp only [compileStatement, compileLetMutation, CompM.bind_apply,
      getState_apply, hc, Bool.false_eq_true, if_false, CompM.fail_apply]
  · intro fuel name value s r s₁ reg hc hexpr hres
    have hstack := (compileExpression_pres hexpr).1
    cases hss : s.scope_stack with
    | nil =>
      rw [hss] at hc
      simp [canMutateVariable] at hc
    | cons sc rest =>
      refine ⟨{ s₁ with bytecode := s₁.bytecode ++ [.Copy reg r]
                      , scope_stack := (sc.define_mutable name reg) :: rest },
        ?_, rfl⟩
      have hres' : resolveVar s₁.scope_stack name = some reg := by
        rw [hstack]; exact hres
      have hstack' : s₁.scope_stack = sc :: rest := hstack.trans hss
      simp only [compileStatement, compileLetMutation, CompM.bind_apply,
        getState_apply, hc, if_true, hexpr, hres', emit_apply,
        defineMutableCurrentScope, withCurrentScope_apply, hstack']
      rw [hss] at hres
      simp only [hres, CompM.bind_apply, emit_apply, withCurrentScope_apply,
        hstack']

/-- Witness for C5 at the spec's example: after `const x = 1;` the
reassignment `x = 2` is rejected, and after `let mut x = 1;` it compiles
to a `Copy` into register 1, the register bound at declaration. -/
theorem c5_reassignment_mutation_witness :
    compileStatement 5 (.Reassignment "x" (.Lit (.int 2))) reassignFixtureConst =
      .error (.MutationNotAllowed "x") ∧
    ∃ s₂, compileStatement 5 (.Reassignment "x" (.Lit (.int 2))) reassignFixtureMut =
        .ok ((), s₂) ∧
      s₂.bytecode = [.LoadLiteral 1 0, .LoadLiteral 2 1] ++ [.Copy 1 2] := by
  constructor
  · exact c5_reassignment_mutation.1 3 "x" (.Lit (.int 2)) reassignFixtureConst (by rfl)
  · exact c5_reassignment_mutation.2 3 "x" (.Lit (.int 2)) reassignFixtureMut 2
      { scope_stack := [⟨.Global, [], [("x", 1, true)]⟩]
      , next_available_register := 3
      , functions := []
      , literals := [.int 1, .int 2]
      , bytecode := [.LoadLiteral 1 0, .LoadLiteral 2 1] } 1
      (by rfl) (by rfl) (by rfl)

/-- **C10** (confirmed).  When a call's name resolves as a user-defined
function in scope and some compiled function carries that name, the
emitted `LoadFunction` id `len - i - 1` (from the reversed-list search)
points at the *last* — most recently compiled — function with that name:
it has the name, and no later index does. -/
theorem c10_function_shadowing :
    ∀ (fuel : Nat) (fname : String) (args : List Expression)
      (s : CompilerState) (r : Nat) (s' : CompilerState) (i : Nat),
      compileExpression (fuel + 1) (.FunctionCall fname args) s = .ok (r, s') →
      resolveFunctionStack s.scope_stack fname = true →
      findRevIndex s.functions fname = some i →
      ∃ (code₁ : List Instruction) (reg ac : Nat),
        s'.bytecode = code₁ ++ [.LoadFunction reg (s.functions.length - i - 1),
                                .CallFunction reg ac r] ∧
        ((s.functions.get? (s.functions.length - i - 1)).map Function.name =
          some fname) ∧
        (∀ j, s.functions.length - i - 1 < j → j < s.functions.length →
          (s.functions.get? j).map Function.name ≠ some fname) := by
  intro fuel fname args s r s' i h hresolve hfind
  obtain ⟨hlen, hname, hlater⟩ := findRevIndex_most_recent hfind
  simp only [compileExpression, CompM.bind_apply, getState_apply, hresolve,
    if_true, hfind] at h
  cases hargs : compileExprList fuel args s with
  | error e =>
    rw [hargs] at h
    exact absurd h (by simp)
  | ok pr =>
    obtain ⟨regs, s₁⟩ := pr
    rw [hargs] at h
    simp only [CompM.bind_apply, getState_apply] at h
    cases hcop : emitArgCopies regs s₁ with
    | error e =>
      rw [hcop] at h
      exact absurd h (by simp)
    | ok pr₂ =>
      obtain ⟨u, s₂⟩ := pr₂
      cases u
      rw [hcop] at h
      simp only [CompM.bind_apply, getState_apply, getRegister_apply,
        emit_apply, CompM.pure_apply, Except.ok.injEq, Prod.mk.injEq] at h
      obtain ⟨hr, hs'⟩ := h
      have hfn : s₂.functions = s.functions :=
        (epres_emitArgCopies regs s₁ () s₂ hcop).2.trans
          (compileExprList_pres hargs).2
      refine ⟨s₂.bytecode, s₂.next_available_register,
        s₂.next_available_register - s₁.next_available_register, ?_, hname,
        hlater⟩
      rw [← hs', ← hr]
      simp only [hfn]
      simp [List.append_assoc]

/-- Witness for C10: with two compiled functions named `f`, a call to `f`
loads function id 1 — the most recently compiled one. -/
theorem c10_function_shadowing_witness :
    ∃ (code₁ : List Instruction) (reg ac : Nat),
      ({ scope_stack := [⟨.Global, ["f"], []⟩]
       , next_available_register := 3
       , functions := [⟨"f", [.FunctionReturn], 1⟩, ⟨"f", [.FunctionReturn], 2⟩]
       , literals := []
       , bytecode := [.LoadFunction 1 1, .CallFunction 1 0 2] } : CompilerState).bytecode =
        code₁ ++ [.LoadFunction reg (shadowFixtureState.functions.length - 0 - 1),
                  .CallFunction reg ac 2] ∧
      ((shadowFixtureState.functions.get?
          (shadowFixtureState.functions.length - 0 - 1)).map Function.name =
        some "f") ∧
      (∀ j, shadowFixtureState.functions.length - 0 - 1 < j →
        j < shadowFixtureState.functions.length →
        (shadowFixtureState.functions.get? j).map Function.name ≠ some "f") :=
  c10_function_shadowing 4 "f" [] shadowFixtureState 2
    { scope_stack := [⟨.Global, ["f"], []⟩]
    , next_available_register := 3
    , functions := [⟨"f", [.FunctionReturn], 1⟩, ⟨"f", [.FunctionReturn], 2⟩]
    , literals := []
    , bytecode := [.LoadFunction 1 1, .CallFunction 1 0 2] } 0
    (by rfl) (by rfl) (by rfl)

/-!
## VM step lemmas
-/

theorem step_arithInstr (cfg : VMConfig) (s : VMState) (op : ArithOp)
    (dest lhs rhs : Nat)
    (hcode : s.current.code.get? s.ip = some (arithInstr op dest lhs rhs)) :
    step cfg s = arithStep s op dest lhs rhs := by
  cases op <;> simp only [step, hcode, arithInstr]

theorem step_cmpInstr (cfg : VMConfig) (s : VMState) (op : CmpOp)
    (dest lhs rhs : Nat)
    (hcode : s.current.code.get? s.ip = some (cmpInstr op dest lhs rhs)) :
    step cfg s = cmpStep s op dest lhs rhs := by
  cases op <;> simp only [step, hcode, cmpInstr]

/-- A mixed integer/float comparison sees `vmValuePartialCmp = none`, so it
is false for every operator except `NotEquals`, which is true. -/
theorem cmpOpResult_int_float (op : CmpOp) (n : Int) (q : Rat) :
    cmpOpResult op (.Lit (.int n)) (.Lit (.float q)) = decide (op = CmpOp.ne) := by
  cases op <;> simp [cmpOpResult, vmValuePartialCmp, literalPartialCmp]

theorem cmpOpResult_float_int (op : CmpOp) (q : Rat) (n : Int) :
    cmpOpResult op (.Lit (.float q)) (.Lit (.int n)) = decide (op = CmpOp.ne) := by
  cases op <;> simp [cmpOpResult, vmValuePartialCmp, literalPartialCmp]

/-- **C2** (counterexample).  `GreaterThan` on integer `1` and float `1/2`
writes boolean `false` (the claim asserts `true`), and `Equals` on integer
`1` and float `1` also writes `false` (the claim asserts `true`). -/
theorem c2_comparison_promotion_counterexample :
    step cmpFixtureCfg cmpFixtureGt = .next
      { cmpFixtureGt with
        registers := cmpFixtureRegs.set 3 (.Lit (.bool false)), ip := 1 } ∧
    step cmpFixtureCfg cmpFixtureEq = .next
      { cmpFixtureEq with
        registers := cmpFixtureRegs.set 4 (.Lit (.bool false)), ip := 2 } ∧
    (false : Bool) ≠ true := by
  exact ⟨by rfl, by rfl, by decide⟩

/-- **C2** (amended).  The comparison instructions perform *no* int/float
promotion: `PartialOrd for VMValue` only compares literals of the same
kind, so on an integer/float operand pair every comparison yields `false`
except `NotEquals`, which yields `true` — both as a fact about the operand
dispatch and through a full VM step. -/
theorem c2_comparison_no_promotion :
    (∀ (op : CmpOp) (n : Int) (q : Rat),
      cmpOpResult op (.Lit (.int n)) (.Lit (.float q)) = decide (op = CmpOp.ne) ∧
      cmpOpResult op (.Lit (.float q)) (.Lit (.int n)) = decide (op = CmpOp.ne)) ∧
    (∀ (cfg : VMConfig) (s : VMState) (op : CmpOp) (dest lhs rhs : Nat)
       (n : Int) (q : Rat),
      s.current.code.get? s.ip = some (cmpInstr op dest lhs rhs) →
      readReg s lhs = some (.Lit (.int n)) →
      readReg s rhs = some (.Lit (.float q)) →
      s.base + dest < s.registers.length →
      step cfg s = .next { s with
        registers := s.registers.set (s.base + dest)
          (.Lit (.bool (decide (op = CmpOp.ne))))
      , ip := s.ip + 1 }) := by
  constructor
  · intro op n q
    exact ⟨cmpOpResult_int_float op n q, cmpOpResult_float_int op q n⟩
  · intro cfg s op dest lhs rhs n q hcode hlhs hrhs hw
    rw [step_cmpInstr cfg s op dest lhs rhs hcode]
    simp only [cmpStep, hlhs, hrhs, cmpOpResult_int_float, writeReg,
      if_pos hw]

/-- Witness for C2's amended theorem: a `LessThan` step on integer 1 and
float 1/2 writes `false` (`LessThan ≠ NotEquals`). -/
theorem c2_comparison_no_promotion_witness :
    cmpOpResult CmpOp.lt (.Lit (.int 1)) (.Lit (.float (1/2))) =
      decide (CmpOp.lt = CmpOp.ne) ∧
    step cmpFixtureCfg cmpFixtureGt = .next { cmpFixtureGt with
      registers := cmpFixtureGt.registers.set (cmpFixtureGt.base + 3)
        (.Lit (.bool (decide (CmpOp.gt = CmpOp.ne))))
    , ip := cmpFixtureGt.ip + 1 } :=
  ⟨(c2_comparison_no_promotion.1 CmpOp.lt 1 (1/2)).1,
   c2_comparison_no_promotion.2 cmpFixtureCfg cmpFixtureGt CmpOp.gt 3 1 2 1 (1/2)
     (by rfl) (by rfl) (by rfl) (by decide)⟩

/-- **C3** (confirmed).  A `Return{val}` step with a non-empty frame stack
pops the top frame, reads register `val` in the callee's (old) window,
shrinks the base by `windowDelta` — the `register_count` recorded in the
frame below, or the global count — writes the value at the frame's
recorded return register in the restored window, and resumes at the saved
instruction pointer plus one.  Symmetrically, a `CallFunction` step from
the same remaining stack grows the base by exactly the same
`windowDelta`, so the shrink equals the growth at the matching call. -/
theorem c3_return_window_protocol :
    (∀ (cfg : VMConfig) (s : VMState) (val : Nat) (frame : Frame)
       (rest : List Frame) (v : VMValue),
      s.current.code.get? s.ip = some (.Return val) →
      s.frames = frame :: rest →
      windowDelta cfg rest ≤ s.base →
      readReg s val = some v →
      s.base - windowDelta cfg rest + frame.function_return_value <
        s.registers.length →
      step cfg s = .next
        { s with
          registers := s.registers.set
            (s.base - windowDelta cfg rest + frame.function_return_value) v
        , base := s.base - windowDelta cfg rest
        , frames := rest
        , current := frame.function
        , ip := frame.ip + 1 }) ∧
    (∀ (cfg : VMConfig) (s : VMState) (src ac rv : Nat) (func : Function)
       (s' : VMState),
      s.current.code.get? s.ip = some (.CallFunction src ac rv) →
      readReg s src = some (.Function func) →
      step cfg s = .next s' →
      s'.base = s.base + windowDelta cfg s.frames ∧
      s'.frames = ⟨s.ip, s.current, func.register_count, rv⟩ :: s.frames) := by
  constructor
  · intro cfg s val frame rest v hcode hframes hδ hread hwrite
    simp only [step, hcode, hframes, if_pos hδ, hread, writeReg]
    rw [if_pos (by simpa using hwrite)]
  · intro cfg s src ac rv func s' hcode hread hstep
    simp only [step, hcode, hread] at hstep
    split at hstep
    · split at hstep
      · split at hstep
        · split at hstep
          · simp only [StepResult.next.injEq] at hstep
            rw [← hstep]
            exact ⟨rfl, rfl⟩
          · exact absurd hstep (by simp)
        · exact absurd hstep (by simp)
      · exact absurd hstep (by simp)
    · exact absurd hstep (by simp)

/-- Witness for C3: a concrete `Return 1` into a width-2 global window,
and the matching concrete `CallFunction` growth. -/
theorem c3_return_window_protocol_witness :
    step retFixtureCfg retFixtureState = .next
      { retFixtureState with
        registers := retFixtureState.registers.set
          (retFixtureState.base - windowDelta retFixtureCfg [] +
            (1 : Nat)) (.Lit (.int 7))
      , base := retFixtureState.base - windowDelta retFixtureCfg []
      , frames := []
      , current := retFixtureCfg.global_function
      , ip := 5 + 1 } ∧
    (({ registers := (List.replicate 6 VMValue.Empty).set 1
          (.Function retFixtureCallee)
      , base := 2
      , frames := [⟨0, ⟨"global", [.CallFunction 1 0 2], 2⟩, 3, 2⟩]
      , current := retFixtureCallee
      , ip := 0, objects := [], arrays := [] } : VMState).base =
        callFixtureState.base +
          windowDelta retFixtureCfg callFixtureState.frames ∧
     ({ registers := (List.replicate 6 VMValue.Empty).set 1
          (.Function retFixtureCallee)
      , base := 2
      , frames := [⟨0, ⟨"global", [.CallFunction 1 0 2], 2⟩, 3, 2⟩]
      , current := retFixtureCallee
      , ip := 0, objects := [], arrays := [] } : VMState).frames =
        ⟨0, callFixtureState.current, retFixtureCallee.register_count, 2⟩ ::
          callFixtureState.frames) := by
  constructor
  · exact c3_return_window_protocol.1 retFixtureCfg retFixtureState 1
      ⟨5, retFixtureCfg.global_function, 3, 1⟩ [] (.Lit (.int 7))
      (by rfl) (by rfl) (by decide) (by rfl) (by decide)
  · exact c3_return_window_protocol.2 retFixtureCfg callFixtureState 1 0 2
      retFixtureCallee _ (by rfl) (by rfl) (by rfl)

/-- **C4** (counterexample).  `JumpIfFalse` on a register holding integer
`7`, and `CallFunction` on the same register, make the VM panic
(`unreachable!` in the source) instead of terminating with an
`InvalidOperation` execution error. -/
theorem c4_invalid_operand_counterexample :
    step badOpFixtureCfg badOpFixtureJif = .fail .panicked ∧
    step badOpFixtureCfg badOpFixtureCall = .fail .panicked := by
  exact ⟨by rfl, by rfl⟩

/-- **C4** (amended).  The VM's defensive `InvalidOperation` net covers
only the prefix-operator and native-call arms; `JumpIfFalse` on a register
not holding a boolean literal and `CallFunction` on a register not holding
a function panic (`unreachable!`) instead. -/
theorem c4_invalid_operand_behaviour :
    (∀ (cfg : VMConfig) (s : VMState) (src offset : Nat) (v : VMValue),
      s.current.code.get? s.ip = some (.JumpIfFalse src offset) →
      readReg s src = some v →
      (∀ b, v ≠ .Lit (.bool b)) →
      step cfg s = .fail .panicked) ∧
    (∀ (cfg : VMConfig) (s : VMState) (src ac rv : Nat) (v : VMValue),
      s.current.code.get? s.ip = some (.CallFunction src ac rv) →
      readReg s src = some v →
      (∀ f, v ≠ .Function f) →
      step cfg s = .fail .panicked) ∧
    (∀ (cfg : VMConfig) (s : VMState) (dest rhs : Nat) (l : Literal),
      s.current.code.get? s.ip = some (.PrefixNot dest rhs) →
      readReg s rhs = some (.Lit l) →
      (∀ b, l ≠ .bool b) →
      step cfg s = .fail (.invalidOperation "cannot use '!' on non boolean type")) ∧
    (∀ (cfg : VMConfig) (s : VMState) (src ac rv : Nat) (fname : String),
      s.current.code.get? s.ip = some (.CallNativeFunction src ac rv) →
      readReg s src = some (.Lit (.str fname)) →
      lookupNative cfg fname = none →
      step cfg s = .fail (.invalidOperation
        ("no function matching name '" ++ fname ++ "' found"))) := by
  refine ⟨?_, ?_, ?_, ?_⟩
  · intro cfg s src offset v hcode hread hv
    simp only [step, hcode, hread]
    cases v with
    | Lit l =>
      cases l with
      | bool b => exact absurd rfl (hv b)
      | str a => rfl
      | float a => rfl
      | int a => rfl
    | Empty => rfl
    | Object h => rfl
    | Array h => rfl
    | Function f => rfl
  · intro cfg s src ac rv v hcode hread hv
    simp only [step, hcode, hread]
  · intro cfg s dest rhs l hcode hread hl
    simp only [step, hcode, hread]
  · intro cfg s src ac rv fname hcode hread hlook
    simp only [step, hcode, hread, hlook]

/-- Witness for C4's amended theorem at the concrete fixtures. -/
theorem c4_invalid_operand_behaviour_witness :
    step badOpFixtureCfg badOpFixtureJif = .fail .panicked ∧
    step badOpFixtureCfg badOpFixtureCall = .fail .panicked ∧
    step badOpFixtureCfg2 badOpFixtureNot =
      .fail (.invalidOperation "cannot use '!' on non boolean type") ∧
    step badOpFixtureCfg2 badOpFixtureNative =
      .fail (.invalidOperation "no function matching name 'nosuch' found") :=
  ⟨c4_invalid_operand_behaviour.1 badOpFixtureCfg badOpFixtureJif 1 2
      (.Lit (.int 7)) (by rfl) (by rfl) (fun b => by simp),
   c4_invalid_operand_behaviour.2.1 badOpFixtureCfg badOpFixtureCall 1 0 2
      (.Lit (.int 7)) (by rfl) (by rfl) (fun f => by simp),
   c4_invalid_operand_behaviour.2.2.1 badOpFixtureCfg2 badOpFixtureNot 2 1
      (.str "nosuch") (by rfl) (by rfl) (fun b => by simp),
   c4_invalid_operand_behaviour.2.2.2 badOpFixtureCfg2 badOpFixtureNative 1 0 2
      "nosuch" (by rfl) (by rfl) (by rfl)⟩

/-- **C7** (counterexample).  `Div` on integer operands `1` and `0`
panics (Rust integer division by zero) instead of producing an integer
result, so the claim as stated fails on that input. -/
theorem c7_arith_promotion_counterexample :
    step arithFixtureCfg arithFixtureDivZero = .fail .panicked := by
  rfl

/-- **C7** (amended).  For `Add`/`Sub`/`Mul`/`Div` on numeric literal
operands: two integers yield the integer result (except integer division
by zero, which panics), and any float operand promotes the other side to
float and yields a float result. -/
theorem c7_arith_promotion :
    ∀ (cfg : VMConfig) (s : VMState) (op : ArithOp) (dest lhs rhs : Nat),
      s.current.code.get? s.ip = some (arithInstr op dest lhs rhs) →
      s.base + dest < s.registers.length →
      ((∀ (a b : Int), readReg s lhs = some (.Lit (.int a)) →
          readReg s rhs = some (.Lit (.int b)) →
          ¬(op = .div ∧ b = 0) →
          step cfg s = .next { s with
            registers := s.registers.set (s.base + dest)
              (.Lit (.int (zApply op a b)))
          , ip := s.ip + 1 }) ∧
       (∀ (a : Int) (q : Rat), readReg s lhs = some (.Lit (.int a)) →
          readReg s rhs = some (.Lit (.float q)) →
          step cfg s = .next { s with
            registers := s.registers.set (s.base + dest)
              (.Lit (.float (qApply op (a : Rat) q)))
          , ip := s.ip + 1 }) ∧
       (∀ (q : Rat) (b : Int), readReg s lhs = some (.Lit (.float q)) →
          readReg s rhs = some (.Lit (.int b)) →
          step cfg s = .next { s with
            registers := s.registers.set (s.base + dest)
              (.Lit (.float (qApply op q (b : Rat))))
          , ip := s.ip + 1 }) ∧
       (∀ (p q : Rat), readReg s lhs = some (.Lit (.float p)) →
          readReg s rhs = some (.Lit (.float q)) →
          step cfg s = .next { s with
            registers := s.registers.set (s.base + dest)
              (.Lit (.float (qApply op p q)))
          , ip := s.ip + 1 }) ∧
       (∀ (a : Int), readReg s lhs = some (.Lit (.int a)) →
          readReg s rhs = some (.Lit (.int 0)) → op = .div →
          step cfg s = .fail .panicked)) := by
  intro cfg s op dest lhs rhs hcode hw
  refine ⟨?_, ?_, ?_, ?_, ?_⟩
  · intro a b hlhs hrhs hnz
    rw [step_arithInstr cfg s op dest lhs rhs hcode]
    simp only [arithStep, hlhs, hrhs, binOpResult, if_neg hnz, writeReg,
      if_pos hw]
  · intro a q hlhs hrhs
    rw [step_arithInstr cfg s op dest lhs rhs hcode]
    simp only [arithStep, hlhs, hrhs, binOpResult, writeReg, if_pos hw]
  · intro q b hlhs hrhs
    rw [step_arithInstr cfg s op dest lhs rhs hcode]
    simp only [arithStep, hlhs, hrhs, binOpResult, writeReg, if_pos hw]
  · intro p q hlhs hrhs
    rw [step_arithInstr cfg s op dest lhs rhs hcode]
    simp only [arithStep, hlhs, hrhs, binOpResult, writeReg, if_pos hw]
  · intro a hlhs hrhs hop
    subst hop
    rw [step_arithInstr cfg s .div dest lhs rhs hcode]
    simp only [arithStep, hlhs, hrhs, binOpResult]
    simp

/-- Witness for C7 at the spec's example: `1 + 2` yields integer `3`,
`1 + 5/2` yields float `7/2`, `1 / 0` panics. -/
theorem c7_arith_promotion_witness :
    step arithFixtureCfg arithFixtureIntInt = .next
      { arithFixtureIntInt with
        registers := arithFixtureIntInt.registers.set
          (arithFixtureIntInt.base + 3) (.Lit (.int (zApply .add 1 2)))
      , ip := arithFixtureIntInt.ip + 1 } ∧
    step arithFixtureCfg arithFixtureIntFloat = .next
      { arithFixtureIntFloat with
        registers := arithFixtureIntFloat.registers.set
          (arithFixtureIntFloat.base + 4)
          (.Lit (.float (qApply .add ((1 : Int) : Rat) (5/2))))
      , ip := arithFixtureIntFloat.ip + 1 } ∧
    step arithFixtureCfg arithFixtureDivZero = .fail .panicked :=
  ⟨(c7_arith_promotion arithFixtureCfg arithFixtureIntInt .add 3 1 2
      (by rfl) (by decide)).1 1 2 (by rfl) (by rfl) (by decide),
   (c7_arith_promotion arithFixtureCfg arithFixtureIntFloat .add 4 1 5
      (by rfl) (by decide)).2.1 1 (5/2) (by rfl) (by rfl),
   (c7_arith_promotion arithFixtureCfg arithFixtureDivZero .div 6 1 7
      (by rfl) (by decide)).2.2.2.2 1 (by rfl) (by rfl) rfl⟩

/-- **C9** (confirmed).  A `CallNativeFunction` step whose resolved native
function returns no value leaves the whole register file — in particular
the designated return register and every other register of the current
window — exactly as it was, merely advancing `ip`.  (In the model, as in
the source, the native function receives clones of the argument registers
and cannot write registers at all; its only register effect would be the
return-value store, which `None` skips.) -/
theorem c9_native_none_preserves_registers :
    ∀ (cfg : VMConfig) (s : VMState) (src ac rv : Nat) (fname : String)
      (f : List VMValue → Option VMValue),
      s.current.code.get? s.ip = some (.CallNativeFunction src ac rv) →
      readReg s src = some (.Lit (.str fname)) →
      lookupNative cfg fname = some f →
      ac ≤ src →
      s.base + src ≤ s.registers.length →
      f ((s.registers.drop (s.base + (src - ac))).take (src - (src - ac))) =
        none →
      step cfg s = .next { s with ip := s.ip + 1 } := by
  intro cfg s src ac rv fname f hcode hread hlook hac hbound hf
  simp only [step, hcode, hread, hlook, if_pos hac, if_pos hbound, hf]

/-- Witness for C9: `print` applied to one argument returns no value and
leaves all registers untouched. -/
theorem c9_native_none_preserves_registers_witness :
    step nativeFixtureCfg nativeFixtureState = .next
      { nativeFixtureState with ip := nativeFixtureState.ip + 1 } :=
  c9_native_none_preserves_registers nativeFixtureCfg nativeFixtureState
    2 1 3 "print" (fun _ => none) (by rfl) (by rfl) (by rfl) (by decide)
    (by decide) (by rfl)

end Sol
